import Mathlib

/-!
Verification of the multi-strategy duplicate detection core
(`duplicate_detector.py`, `vector_engine.py`).

The Python code is shallowly embedded: pandas DataFrames become `Catalog`
(a column list plus rows of optional cells), Python floats become `ℚ`,
missing cells / NaN become `Option.none`, and each detector method becomes
a Lean function of the same name (snake_case turned lowerCamelCase).
-/

/-- A cell value of the catalog: either a string or a number.  Python floats
are modelled exactly as rationals. -/
inductive PVal where
  | str : String → PVal
  | num : ℚ → PVal
deriving DecidableEq, Repr

/-- One catalog row: the `sku` column (always present and used via
`row['sku']`) plus the remaining cells as an association list from column
name to cell; `none` models a pandas null (NaN). -/
structure Row where
  sku : String
  cells : List (String × Option PVal)
deriving DecidableEq, Repr

/-- Cell access `row[col]` / `row.get(col)`: a column absent from the row and
a stored null both behave as pandas NaN, i.e. `none`. -/
def Row.get (r : Row) (c : String) : Option PVal :=
  (r.cells.lookup c).join

/-- A DataFrame: the list of column names (`df.columns`) and the rows in
order. -/
structure Catalog where
  cols : List String
  rows : List Row
deriving DecidableEq, Repr

/-- The `DuplicateCandidate` dataclass.  `matching_attributes` is a Python
dict, modelled as an insertion-ordered association list. -/
structure Candidate where
  sku1 : String
  sku2 : String
  similarity_score : ℚ
  matching_attributes : List (String × Bool)
  confidence : ℚ
  reason : String
deriving DecidableEq, Repr

/-- `self.attribute_weights` of `DuplicateDetector.__init__`, as the total
lookup function `self.attribute_weights.get(a, 0)`. -/
def attributeWeights (a : String) : ℚ :=
  if a = "brand" then 1/4
  else if a = "model_number" then 1/5
  else if a = "upc" then 3/10
  else if a = "ean" then 3/10
  else if a = "size" then 3/20
  else if a = "color" then 1/10
  else if a = "material" then 1/20
  else if a = "price" then 1/20
  else 0

/-- `self.brand_variations` of `DuplicateDetector.__init__`. -/
def brandVariations : List (String × List String) :=
  [ ("nike", ["nike", "nike inc", "nike incorporated"]),
    ("adidas", ["adidas", "adidas ag", "adidas originals"]),
    ("apple", ["apple", "apple inc", "apple incorporated"]),
    ("samsung", ["samsung", "samsung electronics", "samsung group"]),
    ("sony", ["sony", "sony corporation", "sony corp"]) ]

/-- Python's substring test `a in b` on strings: `a` occurs contiguously in
`b` (the empty string occurs in every string). -/
def pyIn (a b : String) : Bool :=
  (List.range (b.toList.length + 1)).any
    (fun i => a.toList.isPrefixOf (b.toList.drop i))

/-- Python `s.lower()` over the character sequence (ASCII case mapping, as
`str.lower` performs on the catalog's ASCII data). -/
def pyLower (s : String) : String :=
  String.mk (s.toList.map Char.toLower)

/-- Python `s.strip()`: drop whitespace from both ends. -/
def pyStrip (s : String) : String :=
  String.mk
    (((s.toList.dropWhile Char.isWhitespace).reverse.dropWhile
      Char.isWhitespace).reverse)

/-- `DuplicateDetector._match_brand`, applied to the already-normalized brand
strings. -/
def matchBrand (brand1 brand2 : String) : Bool :=
  if brand1 = brand2 then true
  else if brandVariations.any
      (fun kv => kv.2.contains brand1 && kv.2.contains brand2) then true
  else if pyIn brand1 brand2 || pyIn brand2 brand1 then true
  else false

/-- Python truthiness of a cell value, as tested by `if not size1`:
`None` never occurs for a cell read from a DataFrame column; a missing cell
is NaN, which is truthy; `''` and `0` are falsy. -/
def truthy : Option PVal → Bool
  | none => true
  | some (.str s) => !(s = "")
  | some (.num q) => !(q = 0)

/-- Python `str(...)` of a cell value: NaN stringifies to the literal
`"nan"`.  Numeric cells are rendered via `toString`; Python's float repr
differs in general, so theorems below only apply this to string or null
cells. -/
def pyStr : Option PVal → String
  | none => "nan"
  | some (.str s) => s
  | some (.num q) => toString q

/-- ASCII letter, the character class `[a-zA-Z]`. -/
def isAsciiAlpha (c : Char) : Bool :=
  ('a' ≤ c && c ≤ 'z') || ('A' ≤ c && c ≤ 'Z')

/-- Digits of a decimal literal as a natural number. -/
def digitsToNat (l : List Char) : Nat :=
  l.foldl (fun n c => 10 * n + (c.toNat - 48)) 0

/-- Model of `re.match(r'(\d+(?:\.\d+)?)\s*([a-zA-Z]*)', s)` in
`_match_size`: succeeds iff `s` starts with at least one digit; returns the
parsed magnitude (exact rational instead of Python float) and the letter run
following optional whitespace, lowercased as by `.group(2).lower()`. -/
def parseSize (s : String) : Option (ℚ × String) :=
  let cs := s.toList
  let intPart := cs.takeWhile Char.isDigit
  if intPart = [] then none
  else
    let rest1 := cs.dropWhile Char.isDigit
    let fracTry := rest1.tail.takeWhile Char.isDigit
    let hasFrac := rest1.head? = some '.' && !(fracTry = [])
    let fracPart := if hasFrac then fracTry else []
    let rest2 := if hasFrac then rest1.tail.dropWhile Char.isDigit else rest1
    let rest3 := rest2.dropWhile Char.isWhitespace
    let unit := (rest3.takeWhile isAsciiAlpha).map Char.toLower
    let mag : ℚ :=
      (digitsToNat intPart : ℚ) +
        (digitsToNat fracPart : ℚ) / ((10 : ℚ) ^ fracPart.length)
    some (mag, String.mk unit)

/-- The `conversions` table of `_match_size`, with the float literals as
exact rationals. -/
def convFactor (u1 u2 : String) : Option ℚ :=
  if u1 = "oz" && u2 = "ml" then some (295735/10000)
  else if u1 = "ml" && u2 = "oz" then some (33814/1000000)
  else if u1 = "lb" && u2 = "kg" then some (453592/1000000)
  else if u1 = "kg" && u2 = "lb" then some (220462/100000)
  else if u1 = "in" && u2 = "cm" then some (254/100)
  else if u1 = "cm" && u2 = "in" then some (393701/1000000)
  else none

/-- `DuplicateDetector._match_size` on two raw cells. -/
def matchSize (size1 size2 : Option PVal) : Bool :=
  if !truthy size1 || !truthy size2 then false
  else if pyLower (pyStr size1) = pyLower (pyStr size2) then true
  else
    match parseSize (pyStr size1), parseSize (pyStr size2) with
    | some (val1, unit1), some (val2, unit2) =>
        if unit1 = unit2 then decide (|val1 - val2| < 1/10)
        else
          match convFactor unit1 unit2 with
          | some f => decide (|val1 * f - val2| < 1/10)
          | none => false
    | _, _ => false

/-- `DuplicateDetector._match_price` with the 10 percent tolerance used by
the fuzzy strategy.  A missing price is NaN: every NaN comparison is false,
so the pair never matches; this is folded into the `none` cases. -/
def matchPrice (price1 price2 : Option ℚ) : Bool :=
  match price1, price2 with
  | some p1, some p2 =>
      if p1 = 0 || p2 = 0 then false
      else decide (|p1 - p2| / max p1 p2 ≤ 1/10)
  | _, _ => false

/-- Accumulating splitter behind `pyWords`: `acc` holds the reversed chars
of the word in progress. -/
def splitWsAux : List Char → List Char → List String
  | [], acc => if acc = [] then [] else [String.mk acc.reverse]
  | c :: cs, acc =>
      if c.isWhitespace then
        if acc = [] then splitWsAux cs []
        else String.mk acc.reverse :: splitWsAux cs []
      else splitWsAux cs (c :: acc)

/-- Python `s.split()`: maximal whitespace-free words, no empties. -/
def pyWords (s : String) : List String :=
  splitWsAux s.toList []

/-- `DuplicateDetector._calculate_name_similarity`: Jaccard word overlap. -/
def calculateNameSimilarity (name1 name2 : String) : ℚ :=
  let words1 := (pyWords (pyLower name1)).toFinset
  let words2 := (pyWords (pyLower name2)).toFinset
  if words1 = ∅ || words2 = ∅ then 0
  else ((words1 ∩ words2).card : ℚ) / ((words1 ∪ words2).card : ℚ)

/-- Normalization of one text cell as performed by
`df[field].fillna('').str.lower().str.strip()`: a null becomes `''` before
the string accessor runs; a numeric cell survives `fillna` and then the
`.str` accessor turns it into NaN. -/
def normTextCell : Option PVal → Option PVal
  | none => some (.str "")
  | some (.str s) => some (.str (pyStrip (pyLower s)))
  | some (.num _) => none

/-- The `text_fields` list of `_find_by_fuzzy_attributes`. -/
def textFields : List String := ["brand_name", "product_name", "color", "material"]

/-- One iteration of the normalization loop: when `field` is a column,
append the `<field>_normalized` column (this mutates the input DataFrame in
place in the Python code). -/
def addNormalizedColumn (df : Catalog) (field : String) : Catalog :=
  if field ∈ df.cols then
    { cols := df.cols ++ [field ++ "_normalized"],
      rows := df.rows.map (fun r =>
        { r with cells :=
            r.cells ++ [(field ++ "_normalized", normTextCell (r.get field))] }) }
  else df

/-- The whole normalization loop of `_find_by_fuzzy_attributes`. -/
def normalizeTextFields (df : Catalog) : Catalog :=
  textFields.foldl addNormalizedColumn df

/-- String content of a cell; the theorems below restrict text columns to
string or null cells, where this is exact. -/
def getStr (r : Row) (c : String) : String :=
  match r.get c with
  | some (.str s) => s
  | _ => ""

/-- Numeric content of the price cell; a missing or non-numeric price is
reported as `none` (NaN). -/
def getPriceQ (r : Row) : Option ℚ :=
  match r.get "price" with
  | some (.num q) => some q
  | _ => none

/-- The body of the pair loop of `_find_by_fuzzy_attributes`: accumulate
`matches` and `match_score` attribute by attribute in source order (brand,
size, price, then the product-name bonus) and emit a candidate iff the score
reaches `0.5`. -/
def pairCandidate (df : Catalog) (row1 row2 : Row) : Option Candidate :=
  let st0 : List (String × Bool) × ℚ := ([], 0)
  let st1 :=
    if "brand_name_normalized" ∈ df.cols then
      let brandMatch := matchBrand
        (getStr row1 "brand_name_normalized") (getStr row2 "brand_name_normalized")
      (st0.1 ++ [("brand", brandMatch)],
        st0.2 + if brandMatch then attributeWeights "brand" else 0)
    else st0
  let st2 :=
    if "size" ∈ df.cols then
      let sizeMatch := matchSize (row1.get "size") (row2.get "size")
      (st1.1 ++ [("size", sizeMatch)],
        st1.2 + if sizeMatch then attributeWeights "size" else 0)
    else st1
  let st3 :=
    if "price" ∈ df.cols then
      let priceMatch := matchPrice (getPriceQ row1) (getPriceQ row2)
      (st2.1 ++ [("price", priceMatch)],
        st2.2 + if priceMatch then attributeWeights "price" else 0)
    else st2
  let st4 :=
    if "product_name_normalized" ∈ df.cols then
      (st3.1,
        if calculateNameSimilarity
            (getStr row1 "product_name_normalized")
            (getStr row2 "product_name_normalized") > 8/10
        then st3.2 + 1/5 else st3.2)
    else st3
  if st4.2 ≥ 1/2 then
    some ⟨row1.sku, row2.sku, st4.2, st4.1, st4.2, "Fuzzy attribute matching"⟩
  else none

/-- The `for i ... for j in range(i+1, ...)` double loop over rows. -/
def fuzzyPairsLoop (df : Catalog) : List Row → List Candidate
  | [] => []
  | r :: rest => rest.filterMap (pairCandidate df r) ++ fuzzyPairsLoop df rest

/-- `DuplicateDetector._find_by_fuzzy_attributes`.  The second component is
the state of the products DataFrame after the call: the normalization loop
adds `<field>_normalized` columns to the caller's DataFrame in place. -/
def findByFuzzyAttributes (df : Catalog) : List Candidate × Catalog :=
  let df2 := normalizeTextFields df
  (fuzzyPairsLoop df2 df2.rows, df2)

/-- All unordered pairs of a list in source order
(`for i ... for j in range(i+1, ...)`). -/
def allPairs {α : Type _} : List α → List (α × α)
  | [] => []
  | x :: xs => xs.map (fun y => (x, y)) ++ allPairs xs

/-- Insert one element into an insertion-ordered grouping, as
`defaultdict(list)[k].append(x)` does. -/
def insertGrouped {α : Type _} {κ : Type _} [DecidableEq κ]
    (acc : List (κ × List α)) (k : κ) (x : α) : List (κ × List α) :=
  match acc with
  | [] => [(k, [x])]
  | (k2, xs) :: rest =>
      if k = k2 then (k2, xs ++ [x]) :: rest
      else (k2, xs) :: insertGrouped rest k x

/-- Group a list by a key, keys in first-occurrence order and each group in
source order: the behaviour of filling a `defaultdict(list)` and iterating
it. -/
def groupByKey {α : Type _} {κ : Type _} [DecidableEq κ]
    (key : α → κ) (l : List α) : List (κ × List α) :=
  l.foldl (fun acc x => insertGrouped acc (key x) x) []

/-- The `identifier_columns` list of `_find_by_identifiers`. -/
def identifierColumns : List String := ["upc", "ean", "isbn", "asin", "model_number"]

/-- Rendering of an identifier value into the reason f-string. -/
def pvalStr : PVal → String
  | .str s => s
  | .num q => toString q

/-- The candidates emitted for one identifier group: all row pairs in source
order, each with similarity and confidence `1.0`. -/
def identifierPairCands (col : String) (kv : PVal × List Row) : List Candidate :=
  (allPairs (kv.2.map Row.sku)).map (fun p =>
    ⟨p.1, p.2, 1, [(col, true)], 1,
      "Exact " ++ col ++ " match: " ++ pvalStr kv.1⟩)

/-- The candidates of `_find_by_identifiers` for one identifier column:
group the rows with a non-null value by that value and emit every in-group
pair.  pandas `groupby` sorts group keys; here groups are kept in
first-occurrence order, which permutes the emitted candidate list but
produces the same candidates, and the claims below only concern
membership. -/
def identifierColCands (df : Catalog) (col : String) : List Candidate :=
  let present := df.rows.filter (fun r => (r.get col).isSome)
  let groups := groupByKey (fun r => (r.get col).getD (.str "")) present
  groups.foldl (fun acc kv =>
    if 1 < kv.2.length then acc ++ identifierPairCands col kv else acc) []

/-- `DuplicateDetector._find_by_identifiers`. -/
def findByIdentifiers (df : Catalog) : List Candidate :=
  identifierColumns.foldl (fun acc col =>
    if col ∈ df.cols then acc ++ identifierColCands df col else acc) []

/-- Whether a character suffix is matched by the size-suffix alternation
`(S|M|L|XL|XXL|[0-9]+)$` of the first `re.sub` of `_find_by_patterns`
(with IGNORECASE). -/
def sizeSuffixLang (l : List Char) : Bool :=
  let low := l.map Char.toLower
  low = ['s'] || low = ['m'] || low = ['l'] ||
  low = ['x', 'l'] || low = ['x', 'x', 'l'] ||
  (!(l = []) && l.all Char.isDigit)

/-- Whether a character suffix is matched by the color alternation
`(BLACK|WHITE|RED|BLUE|GREEN)$` of the second `re.sub` (with IGNORECASE). -/
def colorSuffixLang (l : List Char) : Bool :=
  let low := l.map Char.toLower
  low = "black".toList || low = "white".toList || low = "red".toList ||
  low = "blue".toList || low = "green".toList

/-- `re.sub(r'[-_](ALT)$', '', s)`: since the pattern is anchored at the end
there is at most one match, the leftmost position whose separator is
followed by a full suffix of the alternation language; everything from that
position on is removed. -/
def stripAnchored (lang : List Char → Bool) : List Char → List Char
  | [] => []
  | c :: cs =>
      if (c = '-' || c = '_') && lang cs then []
      else c :: stripAnchored lang cs

/-- The SKU base pattern of `_find_by_patterns`: first strip a size/number
suffix, then a color suffix. -/
def skuBasePattern (sku : String) : String :=
  String.mk (stripAnchored colorSuffixLang (stripAnchored sizeSuffixLang sku.toList))

/-- Words removed by `re.sub(r'\b(mens?|womens?|kids?|boys?|girls?)\b', ...)`. -/
def genderWords : List String :=
  ["men", "mens", "women", "womens", "kid", "kids", "boy", "boys", "girl", "girls"]

/-- Words removed by `re.sub(r'\b(small|medium|large|[xs]?[xls])\b', ...)`:
the bracket expression denotes the nine short tokens listed. -/
def sizeWords : List String :=
  ["small", "medium", "large", "x", "l", "s", "xx", "xl", "xs", "sx", "sl", "ss"]

/-- The unit alternatives of `re.sub(r'\b\d+(\.\d+)?\s*(oz|ml|lb|kg|g)\b', ...)`. -/
def unitWords : List String := ["oz", "ml", "lb", "kg", "g"]

/-- A token of the shape `\d+(\.\d+)?`. -/
def isNumberToken (w : String) : Bool :=
  let cs := w.toList
  let intPart := cs.takeWhile Char.isDigit
  let rest := cs.dropWhile Char.isDigit
  !(intPart = []) &&
    (rest = [] ||
      (rest.head? = some '.' && !(rest.tail = []) && rest.tail.all Char.isDigit))

/-- A single token of the shape `\d+(\.\d+)?(oz|ml|lb|kg|g)` (no space
between number and unit). -/
def isNumberUnitToken (w : String) : Bool :=
  unitWords.any (fun u =>
    u.toList.isSuffixOf w.toList &&
      isNumberToken (String.mk (w.toList.take (w.toList.length - u.toList.length))))

/-- Removal of `<number><unit>` volume/weight tokens: the `\s*` in the
pattern lets the number and the unit sit in adjacent whitespace-separated
tokens, in which case both are removed. -/
def removeNumberUnitTokens : List String → List String
  | [] => []
  | [w] => if isNumberUnitToken w then [] else [w]
  | w :: u :: rest =>
      if isNumberUnitToken w then removeNumberUnitTokens (u :: rest)
      else if isNumberToken w && unitWords.contains u then removeNumberUnitTokens rest
      else w :: removeNumberUnitTokens (u :: rest)

/-- The name-cleaning pipeline of `_find_by_patterns`, on the lowercased
name.  The `\b`-delimited substitutions are modelled at the level of
whitespace-separated word tokens (a token is removed iff it is entirely
matched), and the trailing `' '.join(clean_name.split())` whitespace
normalization is the final `intercalate`. -/
def cleanName (name : String) : String :=
  let toks := pyWords name
  let t1 := toks.filter (fun w => !genderWords.contains w)
  let t2 := t1.filter (fun w => !sizeWords.contains w)
  let t3 := removeNumberUnitTokens t2
  String.intercalate " " t3

/-- The candidates emitted for one SKU base-pattern group. -/
def skuPatternPairCands (kv : String × List Row) : List Candidate :=
  (allPairs (kv.2.map Row.sku)).map (fun p =>
    ⟨p.1, p.2, 17/20, [("sku_pattern", true)], 17/20,
      "Similar SKU pattern: " ++ kv.1⟩)

/-- The SKU-pattern half of `DuplicateDetector._find_by_patterns`. -/
def findSkuPatternCands (df : Catalog) : List Candidate :=
  if "sku" ∈ df.cols then
    (groupByKey (fun r => skuBasePattern r.sku) df.rows).foldl (fun acc kv =>
      if 1 < kv.2.length then acc ++ skuPatternPairCands kv else acc) []
  else []

/-- The candidates emitted for one name-pattern group of
`DuplicateDetector._find_by_patterns`: `str(row['product_name'])`
stringifies a pandas null to `"nan"` before cleaning (see `pyStr`). -/
def namePatternPairCands (kv : String × List (String × Row)) : List Candidate :=
  (allPairs (kv.2.map (fun p => p.2.sku))).map (fun p =>
    ⟨p.1, p.2, 4/5, [("name_pattern", true)], 4/5, "Similar name pattern"⟩)

/-- The row of a name-pattern group entry paired with its cleaned name; rows
whose cleaned name is empty are dropped (`if clean_name:`). -/
def nameKeyed (df : Catalog) : List (String × Row) :=
  df.rows.filterMap (fun r =>
    let cn := cleanName (pyLower (pyStr (r.get "product_name")))
    if cn = "" then none else some (cn, r))

def findNamePatternCands (df : Catalog) : List Candidate :=
  if "product_name" ∈ df.cols then
    (groupByKey Prod.fst (nameKeyed df)).foldl (fun acc kv =>
      if 1 < kv.2.length then acc ++ namePatternPairCands kv else acc) []
  else []

/-- `DuplicateDetector._find_by_patterns`. -/
def findByPatterns (df : Catalog) : List Candidate :=
  findSkuPatternCands df ++ findNamePatternCands df

/-- `DuplicateDetector._find_by_embedding_similarity` is a placeholder that
returns no candidates. -/
def findByEmbeddingSimilarity (_embeddings : Catalog) (_threshold : ℚ) :
    List Candidate := []

/-- Python's lexicographic string comparison `a <= b`, code point by code
point over the character sequences. -/
def charListLe : List Char → List Char → Bool
  | [], _ => true
  | _ :: _, [] => false
  | a :: as, b :: bs =>
      if a.toNat < b.toNat then true
      else if b.toNat < a.toNat then false
      else charListLe as bs

/-- Python `a <= b` on strings. -/
def pyStrLe (a b : String) : Bool :=
  charListLe a.toList b.toList

/-- The canonical pair key `tuple(sorted([sku1, sku2]))` of
`_merge_candidates`. -/
def pairKey (c : Candidate) : String × String :=
  if pyStrLe c.sku1 c.sku2 then (c.sku1, c.sku2) else (c.sku2, c.sku1)

/-- In-place overwrite of one dict entry, keeping its position, as Python
`dict` assignment does; a fresh key is appended. -/
def updAssoc : List (String × Bool) → String → Bool → List (String × Bool)
  | [], k, v => [(k, v)]
  | (k2, v2) :: rest, k, v =>
      if k = k2 then (k2, v) :: rest
      else (k2, v2) :: updAssoc rest k v

/-- Python `d.update(e)` on insertion-ordered dicts. -/
def dictUpdate (d e : List (String × Bool)) : List (String × Bool) :=
  e.foldl (fun acc kv => updAssoc acc kv.1 kv.2) d

/-- First-occurrence deduplication (the distinct elements of a list, each at
its first position), tail of a running `seen` accumulator. -/
def dedupFOAux {α : Type _} [DecidableEq α] : List α → List α → List α
  | [], _ => []
  | x :: xs, seen =>
      if x ∈ seen then dedupFOAux xs seen else x :: dedupFOAux xs (x :: seen)

/-- First-occurrence deduplication of a list. -/
def dedupFO {α : Type _} [DecidableEq α] (l : List α) : List α :=
  dedupFOAux l []

/-- Stable insertion into a lexicographically sorted list of strings. -/
def insertSortedStr (s : String) : List String → List String
  | [] => [s]
  | t :: ts => if pyStrLe s t then s :: t :: ts else t :: insertSortedStr s ts

/-- Sort a list of strings. -/
def sortStrings (l : List String) : List String :=
  l.foldr insertSortedStr []

/-- Model of `"; ".join(set(reasons))`.  CPython iterates a set of strings
in an order that is a function of the set contents alone, so the joined
string is determined by the distinct reasons; the embedding fixes the
canonical (sorted) enumeration of those contents. -/
def joinReasons (reasons : List String) : String :=
  String.intercalate "; " (sortStrings (dedupFO reasons))

/-- The per-pair merge body of `_merge_candidates`: union the attribute
dicts in order, take `max_similarity` over the group, boost by `0.1` per
distinct reason and cap at `1.0`.  A group coming from the pair map is never
empty (Python `max` would raise on an empty sequence); the `[]` case is
unreachable and returns a dummy. -/
def mergeGroup (k : String × String) (g : List Candidate) : Candidate :=
  let allMatches := g.foldl (fun acc c => dictUpdate acc c.matching_attributes) []
  let reasons := g.map (fun c => c.reason)
  let maxSimilarity : ℚ :=
    match g with
    | [] => 0
    | c :: cs => cs.foldl (fun a c2 => max a c2.similarity_score) c.similarity_score
  let confidenceBoost : ℚ := ((dedupFO reasons).length : ℚ) * (1/10)
  let finalConfidence := min (maxSimilarity + confidenceBoost) 1
  ⟨k.1, k.2, maxSimilarity, allMatches, finalConfidence, joinReasons reasons⟩

/-- Stable insertion keeping the list sorted by descending confidence: the
new element goes after every element of greater or equal confidence, which
is how Python's stable `list.sort(key=..., reverse=True)` orders ties. -/
def insertByConfidence : List Candidate → Candidate → List Candidate
  | [], c => [c]
  | d :: ds, c =>
      if c.confidence ≤ d.confidence then d :: insertByConfidence ds c
      else c :: d :: ds

/-- Stable sort by descending confidence. -/
def sortByConfidenceDesc (l : List Candidate) : List Candidate :=
  l.foldl insertByConfidence []

/-- `DuplicateDetector._merge_candidates` (the `products_df` parameter of the
Python method is unused by its body and omitted). -/
def mergeCandidates (cands : List Candidate) : List Candidate :=
  sortByConfidenceDesc
    ((groupByKey pairKey cands).map (fun kv => mergeGroup kv.1 kv.2))

/-- `DuplicateDetector.detect_duplicates_multi_strategy`.  The second
component is the state of the caller's products DataFrame after the call
(the fuzzy strategy mutates it in place, and the pattern strategy then runs
over the mutated frame). -/
def detectDuplicatesMultiStrategy (products embeddings : Catalog)
    (similarityThreshold : ℚ) : List Candidate × Catalog :=
  let c1 := findByEmbeddingSimilarity embeddings similarityThreshold
  let c2 := findByIdentifiers products
  let fz := findByFuzzyAttributes products
  let c4 := findByPatterns fz.2
  (mergeCandidates (c1 ++ c2 ++ fz.1 ++ c4), fz.2)

/-- The surviving edges of `group_duplicates`: the pairs of the candidates
passing the confidence filter. -/
def survivingEdges (cands : List Candidate) (minConfidence : ℚ) :
    List (String × String) :=
  (cands.filter (fun c => minConfidence ≤ c.confidence)).map
    (fun c => (c.sku1, c.sku2))

/-- The adjacency set `graph[a]` built by
`graph[c.sku1].add(c.sku2); graph[c.sku2].add(c.sku1)`: every opposite
endpoint of an edge at `a`.  Python stores a set; the duplicates and order
of this list are immaterial because the traversal output is a set. -/
def nbrs (es : List (String × String)) (a : String) : List String :=
  (es.filter (fun e => e.1 = a)).map Prod.snd ++
    (es.filter (fun e => e.2 = a)).map Prod.fst

/-- The keys of `graph` in insertion order, with repetitions (a repeated key
is already visited when reached and contributes nothing). -/
def edgeNodeSeq (es : List (String × String)) : List String :=
  es.foldr (fun e acc => e.1 :: e.2 :: acc) []

/-- The set of SKUs incident to at least one surviving edge. -/
def nodeFinset (es : List (String × String)) : Finset String :=
  (edgeNodeSeq es).toFinset

/-- The recursive `dfs` of `group_duplicates` with its recursion turned into
an explicit stack: pop a node, skip it if visited, otherwise mark it visited
and push its neighbours.  Returns the final visited set. -/
def dfsAux (es : List (String × String)) :
    List String → Finset String → Finset String
  | [], visited => visited
  | n :: stack, visited =>
      if n ∈ visited then dfsAux es stack visited
      else dfsAux es (nbrs es n ++ stack) (insert n visited)
termination_by stack visited => ((nodeFinset es \ visited).card, stack.length)
decreasing_by
· apply Prod.Lex.right
  simp
· by_cases hn : n ∈ nodeFinset es
  · apply Prod.Lex.left
    apply Finset.card_lt_card
    have hsub : nodeFinset es \ insert n visited ⊆ nodeFinset es \ visited :=
      Finset.sdiff_subset_sdiff (Finset.Subset.refl _) (Finset.subset_insert _ _)
    refine (Finset.ssubset_iff_of_subset hsub).mpr ⟨n, ?_, ?_⟩
    · simp only [Finset.mem_sdiff]
      exact ⟨hn, by assumption⟩
    · simp
  · have hS : nodeFinset es \ insert n visited = nodeFinset es \ visited := by
      ext a
      simp only [Finset.mem_sdiff, Finset.mem_insert]
      constructor
      · rintro ⟨haS, hno⟩
        exact ⟨haS, fun hv => hno (Or.inr hv)⟩
      · rintro ⟨haS, hnv⟩
        refine ⟨haS, ?_⟩
        rintro (rfl | hv)
        · exact hn haS
        · exact hnv hv
    rw [hS]
    apply Prod.Lex.right
    have hmem : ∀ e : String × String, e ∈ es →
        e.1 ∈ edgeNodeSeq es ∧ e.2 ∈ edgeNodeSeq es := by
      intro e he
      clear hS hn
      induction es with
      | nil => cases he
      | cons hd tl ih =>
          simp only [edgeNodeSeq, List.foldr_cons, List.mem_cons] at *
          rcases he with rfl | he
          · tauto
          · rcases ih he with ⟨h1, h2⟩
            tauto
    have hnil : nbrs es n = [] := by
      have hno : ∀ e : String × String, e ∈ es → ¬(e.1 = n) ∧ ¬(e.2 = n) := by
        intro e he
        constructor
        · intro hh
          exact hn (by
            simp only [nodeFinset, List.mem_toFinset]
            exact hh ▸ (hmem e he).1)
        · intro hh
          exact hn (by
            simp only [nodeFinset, List.mem_toFinset]
            exact hh ▸ (hmem e he).2)
      simp only [nbrs, List.append_eq_nil, List.map_eq_nil_iff,
        List.filter_eq_nil_iff]
      exact ⟨fun e he hh => (hno e he).1 (by simpa using hh),
        fun e he hh => (hno e he).2 (by simpa using hh)⟩
    simp [hnil]

/-- The `for node in graph:` loop of `group_duplicates`: seed a DFS at every
unvisited key; the group collected by `dfs(node, group)` is exactly the set
of newly visited nodes. -/
def gatherGroups (es : List (String × String)) :
    List String → Finset String → List (Finset String)
  | [], _ => []
  | n :: rest, visited =>
      if n ∈ visited then gatherGroups es rest visited
      else
        let reached := dfsAux es [n] visited
        (reached \ visited) :: gatherGroups es rest reached

/-- `DuplicateDetector.group_duplicates`. -/
def groupDuplicates (cands : List Candidate) (minConfidence : ℚ) :
    List (Finset String) :=
  let es := survivingEdges cands minConfidence
  gatherGroups es (edgeNodeSeq es) ∅

/-- A product handed to `_create_merge_recommendation`: a Python dict from
field name to value, insertion ordered; `none` is a null value under a
present key. -/
def MProduct : Type := List (String × Option PVal)

instance : DecidableEq MProduct := by
  unfold MProduct
  infer_instance

/-- `product.get(key)` collapsed to the cell view: a missing key and a
stored null both give `none`. -/
def mget (p : MProduct) (k : String) : Option PVal :=
  (List.lookup k p).join

/-- Whether a value counts toward the completeness score:
`v is not None and str(v).strip()` (a number always stringifies to a
nonempty string). -/
def pvCounts : Option PVal → Bool
  | none => false
  | some (.str s) => !(pyStrip s = "")
  | some (.num _) => true

/-- The completeness score of one product. -/
def completeness (p : MProduct) : Nat :=
  (p.filter (fun kv => pvCounts kv.2)).length

/-- `np.argmax` on the running scores: index of the first maximum. -/
def argmaxAux : List Nat → Nat → Nat → Nat → Nat
  | [], _, besti, _ => besti
  | x :: xs, i, besti, bestv =>
      if bestv < x then argmaxAux xs (i + 1) i x
      else argmaxAux xs (i + 1) besti bestv

/-- `np.argmax` over a list of scores (0 on the empty list, where the Python
code would raise). -/
def argmaxFirst : List Nat → Nat
  | [] => 0
  | x :: xs => argmaxAux xs 1 0 x

/-- `isinstance(v, (int, float))`. -/
def isNumV : PVal → Bool
  | .num _ => true
  | .str _ => false

/-- Numeric content of a value (only applied to numbers). -/
def numOf : PVal → ℚ
  | .num q => q
  | .str _ => 0

/-- `p['sku']` of a merge-candidate product (the products passed in always
carry a string `sku`; other shapes would raise in Python). -/
def mgetSku (p : MProduct) : String :=
  match mget p "sku" with
  | some (.str s) => s
  | _ => ""

/-- One summand `p.get('inventory_count', 0)` of the inventory sum: a
missing key contributes the default `0`, a present number contributes its
value, and a present null or non-numeric value is the error path (`none`):
Python's `sum` raises `TypeError` on a `None` or string operand. -/
def invTerm (p : MProduct) : Option ℚ :=
  match List.lookup "inventory_count" p with
  | none => some 0
  | some (some (.num q)) => some q
  | some _ => none

/-- `sum(p.get('inventory_count', 0) for p in products)`; `none` models the
`TypeError` raised when some summand is a present null or non-number. -/
def sumInv : List MProduct → Option ℚ
  | [] => some 0
  | p :: ps =>
      match invTerm p, sumInv ps with
      | some q, some s => some (q + s)
      | _, _ => none

/-- `max(set(values), key=values.count)` scanned over the distinct values:
Python's `max` keeps the first element whose key is strictly greater than
the running best, so it returns the first maximum in iteration order.
CPython's set iteration order is implementation defined (a function of the
element hashes); it is modelled as first-occurrence order, and the concrete
inputs of the theorems below use small distinct non-negative integers
encountered in increasing order, for which CPython's iteration order
coincides with first-occurrence order. -/
def mostCommonAux (values : List PVal) : List PVal → PVal → PVal
  | [], best => best
  | v :: vs, best =>
      if values.count best < values.count v then mostCommonAux values vs v
      else mostCommonAux values vs best

/-- `max(set(values), key=values.count)`. -/
def mostCommonValue (values : List PVal) : PVal :=
  match dedupFO values with
  | [] => .str ""
  | v :: vs => mostCommonAux values vs v

/-- The merged value for one key of the primary record: all non-null values
across the group; arithmetic mean for an all-numeric `price`; otherwise the
most common value. -/
def mergedValueFor (products : List MProduct) (k : String) : Option PVal :=
  let values := products.filterMap (fun p => mget p k)
  if values = [] then none
  else if k = "price" && values.all isNumV then
    some (.num ((values.map numOf).sum / (values.length : ℚ)))
  else some (mostCommonValue values)

/-- The result record of `_create_merge_recommendation`. -/
structure MergeRecommendation where
  primary_sku : String
  merged_skus : List String
  total_inventory : ℚ
  merged_attributes : List (String × PVal)
  savings : String
deriving DecidableEq, Repr

/-- The merged-attributes entries contributed by one key of the primary
record: nothing for `sku`, `inventory_count`, or a key with no non-null
value anywhere in the group. -/
def mergedEntryFor (products : List MProduct) (k : String) :
    List (String × PVal) :=
  if !(k = "sku") && !(k = "inventory_count") then
    match mergedValueFor products k with
    | some v => [(k, v)]
    | none => []
  else []

/-- `BigQueryVectorEngine._create_merge_recommendation`.  `none` is an
exception escaping the call: `np.argmax` raises `ValueError` on an empty
group, and the inventory sum raises `TypeError` when a member carries a
present null or non-numeric `inventory_count`. -/
def createMergeRecommendation (products : List MProduct) :
    Option MergeRecommendation :=
  if products = [] then none
  else
    let completenessScores := products.map completeness
    let primaryIdx := argmaxFirst completenessScores
    let primaryProduct := products.getD primaryIdx []
    let mergedAttributes :=
      (primaryProduct.map Prod.fst).foldl
        (fun acc k => acc ++ mergedEntryFor products k) []
    match sumInv products with
    | none => none
    | some totalInventory =>
        some { primary_sku := mgetSku primaryProduct,
               merged_skus := products.map mgetSku,
               total_inventory := totalInventory,
               merged_attributes := mergedAttributes,
               savings :=
                 "$" ++ toString ((products.length - 1) * 50) ++ ".00" }

/-- The undirected adjacency relation of the surviving-edge graph: `a` and
`b` form a filtered candidate pair in either orientation. -/
def adjE (es : List (String × String)) (a b : String) : Prop :=
  (a, b) ∈ es ∨ (b, a) ∈ es

/-- Reachability along surviving edges: a chain of `adjE` steps. -/
def reachE (es : List (String × String)) : String → String → Prop :=
  Relation.ReflTransGen (adjE es)

/-- Spec-side reading of the fuzzy matcher (for the amended claim): the
attribute-match dict assembled per attribute. -/
def fuzzyMatchesSpec (df : Catalog) (row1 row2 : Row) : List (String × Bool) :=
  (if "brand_name_normalized" ∈ df.cols then
    [("brand", matchBrand (getStr row1 "brand_name_normalized")
        (getStr row2 "brand_name_normalized"))] else []) ++
  (if "size" ∈ df.cols then
    [("size", matchSize (row1.get "size") (row2.get "size"))] else []) ++
  (if "price" ∈ df.cols then
    [("price", matchPrice (getPriceQ row1) (getPriceQ row2))] else [])

/-- Spec-side reading of the fuzzy score (for the amended claim): the sum of
the weights of the attributes the strategy actually examines — brand
(`0.25`), size (`0.15`), price (`0.05`) — plus the flat `0.2` name bonus.
The weight-table attributes `model_number`, `upc`, `ean`, `color` and
`material` do not appear: the strategy never reads them. -/
def fuzzyScoreSpec (df : Catalog) (row1 row2 : Row) : ℚ :=
  (if "brand_name_normalized" ∈ df.cols ∧
      matchBrand (getStr row1 "brand_name_normalized")
        (getStr row2 "brand_name_normalized") = true
    then attributeWeights "brand" else 0) +
  (if "size" ∈ df.cols ∧ matchSize (row1.get "size") (row2.get "size") = true
    then attributeWeights "size" else 0) +
  (if "price" ∈ df.cols ∧ matchPrice (getPriceQ row1) (getPriceQ row2) = true
    then attributeWeights "price" else 0) +
  (if "product_name_normalized" ∈ df.cols ∧
      calculateNameSimilarity (getStr row1 "product_name_normalized")
        (getStr row2 "product_name_normalized") > 8/10
    then 1/5 else 0)

/-- Spec-side fuzzy strategy output: one candidate per row pair whose
spec-side score reaches `0.5`, carrying that score as similarity and
confidence. -/
def fuzzySpecCands (df : Catalog) : List Candidate :=
  let df2 := normalizeTextFields df
  (allPairs df2.rows).filterMap (fun pr =>
    if fuzzyScoreSpec df2 pr.1 pr.2 ≥ 1/2 then
      some ⟨pr.1.sku, pr.2.sku, fuzzyScoreSpec df2 pr.1 pr.2,
        fuzzyMatchesSpec df2 pr.1 pr.2, fuzzyScoreSpec df2 pr.1 pr.2,
        "Fuzzy attribute matching"⟩
    else none)

/-- The order-independent content of a merged candidate: pair key,
similarity, confidence and reason (the attribute dict is compared
separately, Python dict equality being order-insensitive). -/
def candProjection (c : Candidate) : (String × String) × ℚ × ℚ × String :=
  ((c.sku1, c.sku2), (c.similarity_score, c.confidence, c.reason))

theorem foldl_append_join {α β : Type _} (l : List α) (g : α → List β)
    (init : List β) :
    l.foldl (fun acc x => acc ++ g x) init = init ++ (l.map g).flatten := by
  induction l generalizing init with
  | nil => simp
  | cons x xs ih => simp [ih, List.append_assoc]

theorem mem_allPairs_of_decomp {α : Type _} {a b : α} (xs ys zs : List α) :
    (a, b) ∈ allPairs (xs ++ a :: (ys ++ b :: zs)) := by
  induction xs with
  | nil =>
      simp only [List.nil_append, allPairs, List.mem_append]
      exact Or.inl (List.mem_map.mpr ⟨b, by simp, rfl⟩)
  | cons x xs ih =>
      simp only [List.cons_append, allPairs, List.mem_append]
      exact Or.inr ih

theorem mem_dedupFOAux {α : Type _} [DecidableEq α] (l : List α) :
    ∀ (seen : List α) (a : α), a ∈ dedupFOAux l seen ↔ a ∈ l ∧ a ∉ seen := by
  induction l with
  | nil => simp [dedupFOAux]
  | cons x xs ih =>
      intro seen a
      by_cases hx : x ∈ seen
      · simp only [dedupFOAux, if_pos hx, ih, List.mem_cons]
        constructor
        · rintro ⟨ha, hs⟩
          exact ⟨Or.inr ha, hs⟩
        · rintro ⟨ha | ha, hs⟩
          · exact absurd (ha ▸ hx) hs
          · exact ⟨ha, hs⟩
      · simp only [dedupFOAux, if_neg hx, List.mem_cons, ih]
        constructor
        · rintro (rfl | ⟨ha, hs⟩)
          · exact ⟨Or.inl rfl, hx⟩
          · exact ⟨Or.inr ha, fun hsn => hs (Or.inr hsn)⟩
        · rintro ⟨rfl | ha, hs⟩
          · exact Or.inl rfl
          · by_cases hax : a = x
            · exact Or.inl hax
            · exact Or.inr ⟨ha, by simp [hax, hs]⟩

theorem mem_dedupFO {α : Type _} [DecidableEq α] (l : List α) (a : α) :
    a ∈ dedupFO l ↔ a ∈ l := by
  simp [dedupFO, mem_dedupFOAux]

theorem nodup_dedupFOAux {α : Type _} [DecidableEq α] (l : List α) :
    ∀ seen : List α, (dedupFOAux l seen).Nodup := by
  induction l with
  | nil => intro seen; simp [dedupFOAux]
  | cons x xs ih =>
      intro seen
      by_cases hx : x ∈ seen
      · simpa [dedupFOAux, if_pos hx] using ih seen
      · simp only [dedupFOAux, if_neg hx, List.nodup_cons]
        refine ⟨fun hmem => ?_, ih _⟩
        rcases (mem_dedupFOAux xs (x :: seen) x).mp hmem with ⟨-, hns⟩
        exact hns (List.mem_cons_self _ _)

theorem nodup_dedupFO {α : Type _} [DecidableEq α] (l : List α) :
    (dedupFO l).Nodup :=
  nodup_dedupFOAux l []

theorem dedupFOAux_append_singleton {α : Type _} [DecidableEq α] (l : List α)
    (a : α) :
    ∀ seen : List α, dedupFOAux (l ++ [a]) seen =
      dedupFOAux l seen ++ (if a ∈ seen ∨ a ∈ l then [] else [a]) := by
  induction l with
  | nil => intro seen; by_cases h : a ∈ seen <;> simp [dedupFOAux, h]
  | cons x xs ih =>
      intro seen
      by_cases hx : x ∈ seen
      · rw [List.cons_append]
        simp only [dedupFOAux, if_pos hx, ih]
        by_cases hax : a = x
        · subst hax
          simp [hx]
        · simp [List.mem_cons, hax]
      · rw [List.cons_append]
        simp only [dedupFOAux, if_neg hx, ih]
        by_cases hax : a = x
        · subst hax
          simp [List.mem_cons]
        · by_cases has : a ∈ seen <;>
            simp [List.mem_cons, hax, has]

theorem dedupFO_append_singleton {α : Type _} [DecidableEq α] (l : List α)
    (a : α) :
    dedupFO (l ++ [a]) = dedupFO l ++ (if a ∈ l then [] else [a]) := by
  simp [dedupFO, dedupFOAux_append_singleton]

theorem filter_key_eq_nil {α κ : Type _} [DecidableEq κ] (key : α → κ)
    (l : List α) (k : κ) (h : k ∉ l.map key) :
    l.filter (fun x => key x = k) = [] := by
  rw [List.filter_eq_nil_iff]
  intro x hx
  simp only [decide_eq_true_eq]
  intro hk
  exact h (List.mem_map.mpr ⟨x, hx, hk⟩)

theorem insertGrouped_map_mem {α κ : Type _} [DecidableEq κ]
    (keys : List κ) (f : κ → List α) (k0 : κ) (x : α)
    (hnd : keys.Nodup) (hk : k0 ∈ keys) :
    insertGrouped (keys.map (fun k => (k, f k))) k0 x =
      keys.map (fun k => (k, f k ++ if k0 = k then [x] else [])) := by
  induction keys with
  | nil => cases hk
  | cons k ks ih =>
      simp only [List.map_cons, insertGrouped]
      by_cases h : k0 = k
      · rw [if_pos h]
        subst h
        simp only [if_pos rfl]
        congr 1
        refine (List.map_congr_left ?_).symm
        intro a ha
        have : k0 ≠ a := by
          rintro rfl
          exact (List.nodup_cons.mp hnd).1 ha
        simp [this]
      · rw [if_neg h]
        have hk2 : k0 ∈ ks := by
          rcases List.mem_cons.mp hk with rfl | hh
          · exact absurd rfl h
          · exact hh
        rw [ih (List.nodup_cons.mp hnd).2 hk2]
        simp [h]

theorem insertGrouped_fresh {α κ : Type _} [DecidableEq κ]
    (g : List (κ × List α)) (k0 : κ) (x : α) (h : k0 ∉ g.map Prod.fst) :
    insertGrouped g k0 x = g ++ [(k0, [x])] := by
  induction g with
  | nil => rfl
  | cons e g ih =>
      simp only [List.map_cons, List.mem_cons] at h
      push_neg at h
      obtain ⟨e1, e2⟩ := e
      simp only [insertGrouped, if_neg h.1]
      rw [ih h.2, List.cons_append]

theorem groupByKey_append_singleton {α κ : Type _} [DecidableEq κ]
    (key : α → κ) (l : List α) (x : α) :
    groupByKey key (l ++ [x]) = insertGrouped (groupByKey key l) (key x) x := by
  simp [groupByKey, List.foldl_append]

theorem groupByKey_eq {α κ : Type _} [DecidableEq κ] (key : α → κ)
    (l : List α) :
    groupByKey key l = (dedupFO (l.map key)).map
      (fun k => (k, l.filter (fun x => key x = k))) := by
  induction l using List.reverseRecOn with
  | nil => simp [groupByKey, dedupFO, dedupFOAux]
  | append_singleton l x ih =>
      rw [groupByKey_append_singleton, ih, List.map_append, List.map_cons,
        List.map_nil, dedupFO_append_singleton]
      by_cases hk : key x ∈ l.map key
      · rw [if_pos hk, List.append_nil,
          insertGrouped_map_mem _ _ _ _ (nodup_dedupFO _)
            ((mem_dedupFO _ _).mpr hk)]
        refine (List.map_congr_left ?_).symm
        intro k hkmem
        rw [List.filter_append]
        by_cases hxk : key x = k
        · simp [List.filter_cons, hxk]
        · simp [List.filter_cons, hxk]
      · rw [if_neg hk]
        have hfresh : key x ∉
            ((dedupFO (l.map key)).map
              (fun k => (k, l.filter (fun x => key x = k)))).map Prod.fst := by
          intro hmem
          simp only [List.map_map, List.mem_map, Function.comp] at hmem
          obtain ⟨k, hkmem, hkeq⟩ := hmem
          exact hk (hkeq ▸ (mem_dedupFO _ _).mp hkmem)
        rw [insertGrouped_fresh _ _ _ hfresh, List.map_append, List.map_cons,
          List.map_nil]
        congr 1
        · refine (List.map_congr_left ?_).symm
          intro k hkmem
          have hxk : ¬(key x = k) := by
            rintro rfl
            exact hk ((mem_dedupFO _ _).mp hkmem)
          rw [List.filter_append]
          simp [List.filter_cons, hxk]
        · rw [List.filter_append, filter_key_eq_nil key l (key x) hk]
          simp [List.filter_cons]

theorem mem_groupByKey {α κ : Type _} [DecidableEq κ] (key : α → κ)
    (l : List α) (k : κ) (hk : k ∈ l.map key) :
    (k, l.filter (fun x => key x = k)) ∈ groupByKey key l := by
  rw [groupByKey_eq]
  exact List.mem_map.mpr ⟨k, (mem_dedupFO _ _).mpr hk, rfl⟩

theorem foldl_append_cond_join {α β : Type _} (l : List α) (p : α → Prop)
    [DecidablePred p] (g : α → List β) (init : List β) :
    l.foldl (fun acc x => if p x then acc ++ g x else acc) init
      = init ++ (l.map (fun x => if p x then g x else [])).flatten := by
  have h : (fun (acc : List β) x => if p x then acc ++ g x else acc)
      = fun acc x => acc ++ (if p x then g x else []) := by
    funext acc x
    by_cases hp : p x <;> simp [hp]
  rw [h, foldl_append_join]

/-- C4: in every catalog with an identifier column, every pair of rows
carrying the same non-null value in that column yields an
identifier-strategy candidate with similarity and confidence `1.0`,
whatever every other attribute holds. -/
theorem identifier_exact_match_pair (df : Catalog) (col : String) (v : PVal)
    (pre mid post : List Row) (r1 r2 : Row)
    (hcolid : col ∈ identifierColumns) (hcol : col ∈ df.cols)
    (hrows : df.rows = pre ++ r1 :: (mid ++ r2 :: post))
    (h1 : r1.get col = some v) (h2 : r2.get col = some v) :
    (⟨r1.sku, r2.sku, 1, [(col, true)], 1,
      "Exact " ++ col ++ " match: " ++ pvalStr v⟩ : Candidate)
      ∈ findByIdentifiers df := by
  rw [findByIdentifiers, foldl_append_cond_join, List.nil_append]
  apply List.mem_flatten.mpr
  refine ⟨if col ∈ df.cols then identifierColCands df col else [],
    List.mem_map.mpr ⟨col, hcolid, rfl⟩, ?_⟩
  rw [if_pos hcol]
  simp only [identifierColCands]
  rw [foldl_append_cond_join, List.nil_append]
  apply List.mem_flatten.mpr
  have hr1p : ((r1.get col).isSome : Bool) = true := by rw [h1]; rfl
  have hr2p : ((r2.get col).isSome : Bool) = true := by rw [h2]; rfl
  have hk1 : (r1.get col).getD (PVal.str "") = v := by rw [h1]; rfl
  have hk2 : (r2.get col).getD (PVal.str "") = v := by rw [h2]; rfl
  have hpres : df.rows.filter (fun r => (r.get col).isSome) =
      pre.filter (fun r => (r.get col).isSome) ++ r1 ::
        (mid.filter (fun r => (r.get col).isSome) ++ r2 ::
          post.filter (fun r => (r.get col).isSome)) := by
    rw [hrows]
    simp [List.filter_append, List.filter_cons, hr1p, hr2p]
  have hgrp : (df.rows.filter (fun r => (r.get col).isSome)).filter
      (fun r => (r.get col).getD (PVal.str "") = v) =
      (pre.filter (fun r => (r.get col).isSome)).filter
          (fun r => (r.get col).getD (PVal.str "") = v) ++ r1 ::
        ((mid.filter (fun r => (r.get col).isSome)).filter
            (fun r => (r.get col).getD (PVal.str "") = v) ++ r2 ::
          (post.filter (fun r => (r.get col).isSome)).filter
            (fun r => (r.get col).getD (PVal.str "") = v)) := by
    rw [hpres]
    simp [List.filter_append, List.filter_cons, hk1, hk2]
  have hvmem : v ∈ (df.rows.filter (fun r => (r.get col).isSome)).map
      (fun r => (r.get col).getD (PVal.str "")) := by
    refine List.mem_map.mpr ⟨r1, ?_, hk1⟩
    rw [hpres]
    simp
  have hentry := mem_groupByKey (fun r => (r.get col).getD (PVal.str ""))
    (df.rows.filter (fun r => (r.get col).isSome)) v hvmem
  refine ⟨identifierPairCands col
    (v, (df.rows.filter (fun r => (r.get col).isSome)).filter
      (fun r => (r.get col).getD (PVal.str "") = v)), ?_, ?_⟩
  · refine List.mem_map.mpr ⟨(v, (df.rows.filter
      (fun r => (r.get col).isSome)).filter
        (fun r => (r.get col).getD (PVal.str "") = v)), hentry, ?_⟩
    rw [if_pos]
    rw [hgrp]
    simp only [List.length_append, List.length_cons]
    omega
  · rw [identifierPairCands]
    apply List.mem_map.mpr
    refine ⟨(r1.sku, r2.sku), ?_, rfl⟩
    rw [hgrp]
    simp only [List.map_append, List.map_cons]
    exact mem_allPairs_of_decomp _ _ _

/-- C4 witness: two rows sharing `upc = "012345"` with different prices. -/
theorem identifier_exact_match_pair_witness :
    (⟨"A", "B", 1, [("upc", true)], 1, "Exact upc match: 012345"⟩ : Candidate)
      ∈ findByIdentifiers
        ⟨["sku", "upc", "price"],
          [⟨"A", [("upc", some (.str "012345")), ("price", some (.num 10))]⟩,
           ⟨"B", [("upc", some (.str "012345")), ("price", some (.num 99))]⟩]⟩ :=
  identifier_exact_match_pair _ "upc" (.str "012345") [] [] []
    ⟨"A", [("upc", some (.str "012345")), ("price", some (.num 10))]⟩
    ⟨"B", [("upc", some (.str "012345")), ("price", some (.num 99))]⟩
    (by decide) (by decide) rfl rfl rfl

theorem filterMap_decomp {α β : Type _} (f : α → Option β)
    (pre mid post : List α) (a b : α) (ya yb : β)
    (ha : f a = some ya) (hb : f b = some yb) :
    (pre ++ a :: (mid ++ b :: post)).filterMap f =
      pre.filterMap f ++ ya :: (mid.filterMap f ++ yb :: post.filterMap f) := by
  simp [List.filterMap_append, ha, hb]

/-- C10: in every catalog with a `product_name` column, any two rows whose
product name is null are stringified to the same token `"nan"`, fall into
one name-pattern group, and yield a name-pattern candidate with similarity
and confidence `0.80`. -/
theorem null_names_pattern_pair (df : Catalog) (pre mid post : List Row)
    (r1 r2 : Row) (hcol : "product_name" ∈ df.cols)
    (hrows : df.rows = pre ++ r1 :: (mid ++ r2 :: post))
    (h1 : r1.get "product_name" = none) (h2 : r2.get "product_name" = none) :
    (⟨r1.sku, r2.sku, 4/5, [("name_pattern", true)], 4/5,
      "Similar name pattern"⟩ : Candidate) ∈ findByPatterns df := by
  rw [findByPatterns]
  apply List.mem_append_right
  rw [findNamePatternCands, if_pos hcol, foldl_append_cond_join,
    List.nil_append]
  apply List.mem_flatten.mpr
  have hf1 : (fun r : Row =>
      let cn := cleanName (pyLower (pyStr (r.get "product_name")))
      if cn = "" then none else some (cn, r)) r1 = some ("nan", r1) := by
    simp only [h1]
    rfl
  have hf2 : (fun r : Row =>
      let cn := cleanName (pyLower (pyStr (r.get "product_name")))
      if cn = "" then none else some (cn, r)) r2 = some ("nan", r2) := by
    simp only [h2]
    rfl
  have hkeyed : nameKeyed df =
      pre.filterMap (fun r : Row =>
        let cn := cleanName (pyLower (pyStr (r.get "product_name")))
        if cn = "" then none else some (cn, r)) ++ ("nan", r1) ::
      (mid.filterMap (fun r : Row =>
        let cn := cleanName (pyLower (pyStr (r.get "product_name")))
        if cn = "" then none else some (cn, r)) ++ ("nan", r2) ::
      post.filterMap (fun r : Row =>
        let cn := cleanName (pyLower (pyStr (r.get "product_name")))
        if cn = "" then none else some (cn, r))) := by
    rw [nameKeyed, hrows]
    exact filterMap_decomp _ _ _ _ _ _ _ _ hf1 hf2
  have hgrp : (nameKeyed df).filter
      (fun x : String × Row => x.1 = "nan") =
      (pre.filterMap (fun r : Row =>
        let cn := cleanName (pyLower (pyStr (r.get "product_name")))
        if cn = "" then none else some (cn, r))).filter
          (fun x : String × Row => x.1 = "nan") ++ ("nan", r1) ::
      ((mid.filterMap (fun r : Row =>
        let cn := cleanName (pyLower (pyStr (r.get "product_name")))
        if cn = "" then none else some (cn, r))).filter
          (fun x : String × Row => x.1 = "nan") ++ ("nan", r2) ::
      (post.filterMap (fun r : Row =>
        let cn := cleanName (pyLower (pyStr (r.get "product_name")))
        if cn = "" then none else some (cn, r))).filter
          (fun x : String × Row => x.1 = "nan")) := by
    rw [hkeyed]
    simp [List.filter_append, List.filter_cons]
  have hvmem : "nan" ∈ (nameKeyed df).map Prod.fst := by
    refine List.mem_map.mpr ⟨("nan", r1), ?_, rfl⟩
    rw [hkeyed]
    simp
  have hentry := mem_groupByKey (Prod.fst : String × Row → String)
    (nameKeyed df) "nan" hvmem
  refine ⟨namePatternPairCands
    ("nan", (nameKeyed df).filter (fun x : String × Row => x.1 = "nan")),
    ?_, ?_⟩
  · refine List.mem_map.mpr ⟨("nan",
      (nameKeyed df).filter (fun x : String × Row => x.1 = "nan")),
      hentry, ?_⟩
    rw [if_pos]
    rw [hgrp]
    simp only [List.length_append, List.length_cons]
    omega
  · rw [namePatternPairCands]
    apply List.mem_map.mpr
    refine ⟨(r1.sku, r2.sku), ?_, rfl⟩
    rw [hgrp]
    simp only [List.map_append, List.map_cons]
    exact mem_allPairs_of_decomp _ _ _

/-- C10 witness: two rows with null product names produce the `0.80`
name-pattern candidate. -/
theorem null_names_pattern_pair_witness :
    (⟨"N1", "N2", 4/5, [("name_pattern", true)], 4/5,
      "Similar name pattern"⟩ : Candidate) ∈ findByPatterns
        ⟨["sku", "product_name"],
          [⟨"N1", [("product_name", none)]⟩,
           ⟨"N2", [("product_name", none)]⟩]⟩ :=
  null_names_pattern_pair _ [] [] []
    ⟨"N1", [("product_name", none)]⟩ ⟨"N2", [("product_name", none)]⟩
    (by decide) rfl rfl rfl

/-- Evaluation rule for `parseSize` when the input has no fractional part:
the intermediate character lists are supplied as decidable side
conditions. -/
theorem parseSize_noFrac (s : String) (ip rest u : List Char)
    (h1 : s.toList.takeWhile Char.isDigit = ip)
    (h2 : s.toList.dropWhile Char.isDigit = rest)
    (hip : ¬(ip = []))
    (hnf : (rest.head? = some '.' && !(rest.tail.takeWhile Char.isDigit = []))
      = false)
    (hu : (rest.dropWhile Char.isWhitespace).takeWhile isAsciiAlpha = u) :
    parseSize s =
      some ((digitsToNat ip : ℚ), String.mk (u.map Char.toLower)) := by
  simp only [parseSize, h1, h2, if_neg hip, hnf, Bool.false_eq_true,
    if_false, hu]
  norm_num [digitsToNat]

/-- Evaluation rule for `parseSize` when the input has a fractional part. -/
theorem parseSize_withFrac (s : String) (ip rest fracTry rest2 u : List Char)
    (h1 : s.toList.takeWhile Char.isDigit = ip)
    (h2 : s.toList.dropWhile Char.isDigit = rest)
    (h3 : rest.tail.takeWhile Char.isDigit = fracTry)
    (h4 : rest.tail.dropWhile Char.isDigit = rest2)
    (hip : ¬(ip = []))
    (hf : (rest.head? = some '.' && !(fracTry = [])) = true)
    (hu : (rest2.dropWhile Char.isWhitespace).takeWhile isAsciiAlpha = u) :
    parseSize s =
      some ((digitsToNat ip : ℚ) +
          (digitsToNat fracTry : ℚ) / ((10 : ℚ) ^ fracTry.length),
        String.mk (u.map Char.toLower)) := by
  simp only [parseSize, h1, h2, h3, h4, if_neg hip, hf, if_true, hu]

theorem parseSize_16oz : parseSize "16 oz" = some (16, "oz") := by
  rw [parseSize_noFrac "16 oz" ['1', '6'] [' ', 'o', 'z'] ['o', 'z']
    (by decide) (by decide) (by decide) (by decide) (by decide)]
  norm_num [show digitsToNat ['1', '6'] = 16 from by decide]
  decide

theorem parseSize_473ml : parseSize "473 ml" = some (473, "ml") := by
  rw [parseSize_noFrac "473 ml" ['4', '7', '3'] [' ', 'm', 'l'] ['m', 'l']
    (by decide) (by decide) (by decide) (by decide) (by decide)]
  norm_num [show digitsToNat ['4', '7', '3'] = 473 from by decide]
  decide

theorem parseSize_4732ml : parseSize "473.2 ml" = some (2366/5, "ml") := by
  rw [parseSize_withFrac "473.2 ml" ['4', '7', '3'] ['.', '2', ' ', 'm', 'l']
    ['2'] [' ', 'm', 'l'] ['m', 'l']
    (by decide) (by decide) (by decide) (by decide) (by decide) (by decide)
    (by decide)]
  norm_num [show digitsToNat ['4', '7', '3'] = 473 from by decide,
    show digitsToNat ['2'] = 2 from by decide]
  decide

/-- Evaluation rule for `matchSize` on two parseable strings with different
but convertible units. -/
theorem matchSize_conv (s1 s2 : String) (v1 v2 f : ℚ) (u1 u2 : String)
    (h1 : parseSize s1 = some (v1, u1)) (h2 : parseSize s2 = some (v2, u2))
    (hne1 : ¬(s1 = "")) (hne2 : ¬(s2 = ""))
    (hlow : ¬(pyLower s1 = pyLower s2))
    (hune : ¬(u1 = u2))
    (hcf : convFactor u1 u2 = some f) :
    matchSize (some (.str s1)) (some (.str s2)) =
      decide (|v1 * f - v2| < 1/10) := by
  simp only [matchSize, truthy, pyStr, h1, h2, if_neg hlow, if_neg hune, hcf]
  simp [hne1, hne2]

/-- C6 counterexample: the size matcher applied to `"16 oz"` and `"473 ml"`
returns `false`, not `true` as the claim states. -/
theorem match_size_16oz_473ml :
    matchSize (some (.str "16 oz")) (some (.str "473 ml")) = false := by
  rw [matchSize_conv "16 oz" "473 ml" 16 473 (295735/10000) "oz" "ml"
    parseSize_16oz parseSize_473ml (by decide) (by decide) (by decide)
    (by decide) (by norm_num [convFactor])]
  rw [decide_eq_false_iff_not,
    show (16 : ℚ) * (295735/10000) - 473 = 22/125 from by norm_num,
    abs_of_pos (show (0 : ℚ) < 22/125 from by norm_num)]
  norm_num

/-- C6 amended: both sizes parse as convertible `(magnitude, unit)` pairs,
but the converted magnitude `16 * 29.5735 = 473.176` differs from `473` by
`0.176`, which is not within the `0.1` absolute tolerance, so the match is
`false`; a second magnitude within tolerance (`"473.2 ml"`) does match. -/
theorem match_size_16oz_473ml_amended :
    parseSize "16 oz" = some (16, "oz") ∧
    parseSize "473 ml" = some (473, "ml") ∧
    convFactor "oz" "ml" = some (295735/10000) ∧
    (16 : ℚ) * (295735/10000) - 473 = 176/1000 ∧
    ¬(|(16 : ℚ) * (295735/10000) - 473| < 1/10) ∧
    matchSize (some (.str "16 oz")) (some (.str "473 ml")) = false ∧
    matchSize (some (.str "16 oz")) (some (.str "473.2 ml")) = true := by
  refine ⟨parseSize_16oz, parseSize_473ml, by norm_num [convFactor],
    by norm_num, ?_, match_size_16oz_473ml, ?_⟩
  · rw [show (16 : ℚ) * (295735/10000) - 473 = 22/125 from by norm_num,
      abs_of_pos (show (0 : ℚ) < 22/125 from by norm_num)]
    norm_num
  rw [matchSize_conv "16 oz" "473.2 ml" 16 (2366/5) (295735/10000) "oz" "ml"
    parseSize_16oz parseSize_4732ml (by decide) (by decide) (by decide)
    (by decide) (by norm_num [convFactor])]
  rw [decide_eq_true_eq,
    show (16 : ℚ) * (295735/10000) - 2366/5 = -(3/125) from by norm_num,
    abs_neg, abs_of_pos (show (0 : ℚ) < 3/125 from by norm_num)]
  norm_num

theorem nameSim_widget : calculateNameSimilarity "widget" "widget" = 1 := by
  have h : pyWords (pyLower "widget") = ["widget"] := by decide
  simp only [calculateNameSimilarity, h]
  norm_num

/-- C7 (code bug exhibit): the fuzzy strategy normalizes a missing
`brand_name` to `""`, and `_match_brand`'s substring test makes the empty
string match every brand, so the absent brand contributes its full `0.25`
weight: the pair below scores `0.6 = 0.25 (brand) + 0.15 (size) + 0.2
(name)` and is emitted with `brand` marked as matching, although
`brand_name` is null in the second record; the spec's missing-field policy
(missing brand contributes 0) would score it `0.35`, below the `0.5`
emission threshold. -/
theorem missing_brand_counts_as_match :
    matchBrand "" "nike" = true ∧ matchBrand "nike" "" = true ∧
    Row.get ⟨"B2", [("product_name", some (.str "widget")),
      ("size", some (.str "16 oz"))]⟩ "brand_name" = none ∧
    (findByFuzzyAttributes
      ⟨["sku", "brand_name", "product_name", "size"],
        [⟨"B1", [("brand_name", some (.str "Nike")),
                 ("product_name", some (.str "widget")),
                 ("size", some (.str "16 oz"))]⟩,
         ⟨"B2", [("product_name", some (.str "widget")),
                 ("size", some (.str "16 oz"))]⟩]⟩).1 =
      [⟨"B1", "B2", 3/5, [("brand", true), ("size", true)], 3/5,
        "Fuzzy attribute matching"⟩] ∧
    (3/5 : ℚ) = attributeWeights "brand" + attributeWeights "size" + 1/5 := by
  refine ⟨by decide, by decide, by decide, ?_, by
    rw [show attributeWeights "brand" = 1/4 from rfl,
      show attributeWeights "size" = 3/20 from rfl]
    norm_num⟩
  have hnorm : normalizeTextFields
      ⟨["sku", "brand_name", "product_name", "size"],
        [⟨"B1", [("brand_name", some (.str "Nike")),
                 ("product_name", some (.str "widget")),
                 ("size", some (.str "16 oz"))]⟩,
         ⟨"B2", [("product_name", some (.str "widget")),
                 ("size", some (.str "16 oz"))]⟩]⟩ =
      ⟨["sku", "brand_name", "product_name", "size", "brand_name_normalized",
        "product_name_normalized"],
        [⟨"B1", [("brand_name", some (.str "Nike")),
                 ("product_name", some (.str "widget")),
                 ("size", some (.str "16 oz")),
                 ("brand_name_normalized", some (.str "nike")),
                 ("product_name_normalized", some (.str "widget"))]⟩,
         ⟨"B2", [("product_name", some (.str "widget")),
                 ("size", some (.str "16 oz")),
                 ("brand_name_normalized", some (.str "")),
                 ("product_name_normalized", some (.str "widget"))]⟩]⟩ := by
    decide
  have hpair : pairCandidate
      ⟨["sku", "brand_name", "product_name", "size", "brand_name_normalized",
        "product_name_normalized"],
        [⟨"B1", [("brand_name", some (.str "Nike")),
                 ("product_name", some (.str "widget")),
                 ("size", some (.str "16 oz")),
                 ("brand_name_normalized", some (.str "nike")),
                 ("product_name_normalized", some (.str "widget"))]⟩,
         ⟨"B2", [("product_name", some (.str "widget")),
                 ("size", some (.str "16 oz")),
                 ("brand_name_normalized", some (.str "")),
                 ("product_name_normalized", some (.str "widget"))]⟩]⟩
      ⟨"B1", [("brand_name", some (.str "Nike")),
              ("product_name", some (.str "widget")),
              ("size", some (.str "16 oz")),
              ("brand_name_normalized", some (.str "nike")),
              ("product_name_normalized", some (.str "widget"))]⟩
      ⟨"B2", [("product_name", some (.str "widget")),
              ("size", some (.str "16 oz")),
              ("brand_name_normalized", some (.str "")),
              ("product_name_normalized", some (.str "widget"))]⟩ =
      some ⟨"B1", "B2", 3/5, [("brand", true), ("size", true)], 3/5,
        "Fuzzy attribute matching"⟩ := by
    simp only [pairCandidate,
      show matchBrand (getStr ⟨"B1", [("brand_name", some (.str "Nike")),
          ("product_name", some (.str "widget")),
          ("size", some (.str "16 oz")),
          ("brand_name_normalized", some (.str "nike")),
          ("product_name_normalized", some (.str "widget"))]⟩
          "brand_name_normalized")
        (getStr ⟨"B2", [("product_name", some (.str "widget")),
          ("size", some (.str "16 oz")),
          ("brand_name_normalized", some (.str "")),
          ("product_name_normalized", some (.str "widget"))]⟩
          "brand_name_normalized") = true from by decide]
    norm_num [nameSim_widget,
      show getStr ⟨"B1", [("brand_name", some (.str "Nike")),
          ("product_name", some (.str "widget")),
          ("size", some (.str "16 oz")),
          ("brand_name_normalized", some (.str "nike")),
          ("product_name_normalized", some (.str "widget"))]⟩
        "product_name_normalized" = "widget" from by decide,
      show getStr ⟨"B2", [("product_name", some (.str "widget")),
          ("size", some (.str "16 oz")),
          ("brand_name_normalized", some (.str "")),
          ("product_name_normalized", some (.str "widget"))]⟩
        "product_name_normalized" = "widget" from by decide,
      show (Row.get ⟨"B1", [("brand_name", some (.str "Nike")),
          ("product_name", some (.str "widget")),
          ("size", some (.str "16 oz")),
          ("brand_name_normalized", some (.str "nike")),
          ("product_name_normalized", some (.str "widget"))]⟩
        "size") = some (.str "16 oz") from by decide,
      show (Row.get ⟨"B2", [("product_name", some (.str "widget")),
          ("size", some (.str "16 oz")),
          ("brand_name_normalized", some (.str "")),
          ("product_name_normalized", some (.str "widget"))]⟩
        "size") = some (.str "16 oz") from by decide,
      show matchSize (some (.str "16 oz")) (some (.str "16 oz")) = true from
        by decide,
      show attributeWeights "brand" = 1/4 from rfl,
      show attributeWeights "size" = 3/20 from rfl,
      show ¬("price" = "sku" ∨ "price" = "brand_name" ∨
        "price" = "product_name" ∨ "price" = "size" ∨
        "price" = "brand_name_normalized" ∨
        "price" = "product_name_normalized") from by decide]
  show fuzzyPairsLoop
      (normalizeTextFields
        ⟨["sku", "brand_name", "product_name", "size"],
          [⟨"B1", [("brand_name", some (.str "Nike")),
                   ("product_name", some (.str "widget")),
                   ("size", some (.str "16 oz"))]⟩,
           ⟨"B2", [("product_name", some (.str "widget")),
                   ("size", some (.str "16 oz"))]⟩]⟩)
      (normalizeTextFields
        ⟨["sku", "brand_name", "product_name", "size"],
          [⟨"B1", [("brand_name", some (.str "Nike")),
                   ("product_name", some (.str "widget")),
                   ("size", some (.str "16 oz"))]⟩,
           ⟨"B2", [("product_name", some (.str "widget")),
                   ("size", some (.str "16 oz"))]⟩]⟩).rows = _
  rw [hnorm]
  simp only [fuzzyPairsLoop, hpair, List.filterMap_cons, List.filterMap_nil,
    List.append_nil, List.nil_append]

set_option maxHeartbeats 2000000 in
theorem pairCandidate_eq_spec (df : Catalog) (row1 row2 : Row) :
    pairCandidate df row1 row2 =
      (if fuzzyScoreSpec df row1 row2 ≥ 1/2 then
        some ⟨row1.sku, row2.sku, fuzzyScoreSpec df row1 row2,
          fuzzyMatchesSpec df row1 row2, fuzzyScoreSpec df row1 row2,
          "Fuzzy attribute matching"⟩
      else none) := by
  by_cases h1 : "brand_name_normalized" ∈ df.cols <;>
    by_cases h2 : "size" ∈ df.cols <;>
      by_cases h3 : "price" ∈ df.cols <;>
        by_cases h4 : "product_name_normalized" ∈ df.cols <;>
          simp only [pairCandidate, fuzzyScoreSpec, fuzzyMatchesSpec, h1, h2,
            h3, h4, if_true, if_false, true_and, false_and, and_true,
            and_false, List.nil_append, List.append_nil, zero_add, add_zero,
            eq_self_iff_true, if_pos, if_neg, not_false_iff, ite_true,
            ite_false] <;>
        (try split_ifs) <;>
        simp_all [show attributeWeights "brand" = 1/4 from rfl,
          show attributeWeights "size" = 3/20 from rfl,
          show attributeWeights "price" = 1/20 from rfl] <;>
        linarith

theorem fuzzyPairsLoop_eq_allPairs (df : Catalog) (l : List Row) :
    fuzzyPairsLoop df l =
      (allPairs l).filterMap (fun pr => pairCandidate df pr.1 pr.2) := by
  induction l with
  | nil => rfl
  | cons r rest ih =>
      simp only [fuzzyPairsLoop, allPairs, List.filterMap_append, ih,
        List.filterMap_map]
      rfl

/-- C5 amended: the fuzzy-attribute strategy scores exactly brand (`0.25`),
size (`0.15`) and price (`0.05`) plus the flat `0.2` name bonus, and emits a
candidate for a pair iff that sum reaches `0.5`, with
`confidence = similarity_score = score`; the weight-table attributes
`model_number`, `upc`, `ean`, `color` and `material` are never examined by
this strategy. -/
theorem fuzzy_strategy_weights_spec (df : Catalog) :
    (findByFuzzyAttributes df).1 = fuzzySpecCands df := by
  show fuzzyPairsLoop (normalizeTextFields df)
    (normalizeTextFields df).rows = _
  rw [fuzzyPairsLoop_eq_allPairs, fuzzySpecCands]
  congr 1
  funext pr
  exact pairCandidate_eq_spec _ _ _

theorem nameSim_alpha_beta : calculateNameSimilarity "alpha" "beta" = 0 := by
  have h1 : pyWords (pyLower "alpha") = ["alpha"] := by decide
  have h2 : pyWords (pyLower "beta") = ["beta"] := by decide
  unfold calculateNameSimilarity
  rw [h1, h2]
  rw [if_neg (by decide)]
  rw [show ((["alpha"].toFinset ∩ ["beta"].toFinset : Finset String)).card
      = 0 from by decide,
    show ((["alpha"].toFinset ∪ ["beta"].toFinset : Finset String)).card
      = 2 from by decide]
  norm_num

/-- C5 counterexample: two rows agreeing exactly on `model_number`, `upc`,
`ean`, `color` and `material` (and on nothing else) produce no
fuzzy-attribute candidate at all — the strategy never examines those
attributes, so the pair scores `0`, not the `0.95` the per-attribute weight
table would give. -/
theorem fuzzy_ignores_secondary_attributes :
    (∀ c ∈ (["model_number", "upc", "ean", "color", "material"] :
        List String),
      Row.get ⟨"A1", [("brand_name", some (.str "Nike")),
                 ("product_name", some (.str "alpha")),
                 ("model_number", some (.str "M-100")),
                 ("upc", some (.str "012345")),
                 ("ean", some (.str "99001")),
                 ("color", some (.str "Red")),
                 ("material", some (.str "Steel")),
                 ("size", some (.str "3 oz"))]⟩
          c =
        Row.get ⟨"A2", [("brand_name", some (.str "Adidas")),
                 ("product_name", some (.str "beta")),
                 ("model_number", some (.str "M-100")),
                 ("upc", some (.str "012345")),
                 ("ean", some (.str "99001")),
                 ("color", some (.str "Red")),
                 ("material", some (.str "Steel"))]⟩
          c ∧
      (Row.get ⟨"A1", [("brand_name", some (.str "Nike")),
                 ("product_name", some (.str "alpha")),
                 ("model_number", some (.str "M-100")),
                 ("upc", some (.str "012345")),
                 ("ean", some (.str "99001")),
                 ("color", some (.str "Red")),
                 ("material", some (.str "Steel")),
                 ("size", some (.str "3 oz"))]⟩
          c).isSome = true) ∧
    (findByFuzzyAttributes
      ⟨["sku", "brand_name", "product_name", "model_number", "upc", "ean",
          "color", "material", "size"],
        [⟨"A1", [("brand_name", some (.str "Nike")),
                 ("product_name", some (.str "alpha")),
                 ("model_number", some (.str "M-100")),
                 ("upc", some (.str "012345")),
                 ("ean", some (.str "99001")),
                 ("color", some (.str "Red")),
                 ("material", some (.str "Steel")),
                 ("size", some (.str "3 oz"))]⟩,
         ⟨"A2", [("brand_name", some (.str "Adidas")),
                 ("product_name", some (.str "beta")),
                 ("model_number", some (.str "M-100")),
                 ("upc", some (.str "012345")),
                 ("ean", some (.str "99001")),
                 ("color", some (.str "Red")),
                 ("material", some (.str "Steel"))]⟩]⟩).1 = [] := by
  refine ⟨by decide, ?_⟩
  have hnorm : normalizeTextFields
      ⟨["sku", "brand_name", "product_name", "model_number", "upc", "ean",
          "color", "material", "size"],
        [⟨"A1", [("brand_name", some (.str "Nike")),
                 ("product_name", some (.str "alpha")),
                 ("model_number", some (.str "M-100")),
                 ("upc", some (.str "012345")),
                 ("ean", some (.str "99001")),
                 ("color", some (.str "Red")),
                 ("material", some (.str "Steel")),
                 ("size", some (.str "3 oz"))]⟩,
         ⟨"A2", [("brand_name", some (.str "Adidas")),
                 ("product_name", some (.str "beta")),
                 ("model_number", some (.str "M-100")),
                 ("upc", some (.str "012345")),
                 ("ean", some (.str "99001")),
                 ("color", some (.str "Red")),
                 ("material", some (.str "Steel"))]⟩]⟩ =
      ⟨["sku", "brand_name", "product_name", "model_number", "upc", "ean",
          "color", "material", "size", "brand_name_normalized",
          "product_name_normalized", "color_normalized",
          "material_normalized"],
        [⟨"A1", [("brand_name", some (.str "Nike")),
                 ("product_name", some (.str "alpha")),
                 ("model_number", some (.str "M-100")),
                 ("upc", some (.str "012345")),
                 ("ean", some (.str "99001")),
                 ("color", some (.str "Red")),
                 ("material", some (.str "Steel")),
                 ("size", some (.str "3 oz")),
                 ("brand_name_normalized", some (.str "nike")),
                 ("product_name_normalized", some (.str "alpha")),
                 ("color_normalized", some (.str "red")),
                 ("material_normalized", some (.str "steel"))]⟩,
         ⟨"A2", [("brand_name", some (.str "Adidas")),
                 ("product_name", some (.str "beta")),
                 ("model_number", some (.str "M-100")),
                 ("upc", some (.str "012345")),
                 ("ean", some (.str "99001")),
                 ("color", some (.str "Red")),
                 ("material", some (.str "Steel")),
                 ("brand_name_normalized", some (.str "adidas")),
                 ("product_name_normalized", some (.str "beta")),
                 ("color_normalized", some (.str "red")),
                 ("material_normalized", some (.str "steel"))]⟩]⟩ := by
    decide
  have hpair : pairCandidate
      ⟨["sku", "brand_name", "product_name", "model_number", "upc", "ean",
          "color", "material", "size", "brand_name_normalized",
          "product_name_normalized", "color_normalized",
          "material_normalized"],
        [⟨"A1", [("brand_name", some (.str "Nike")),
                 ("product_name", some (.str "alpha")),
                 ("model_number", some (.str "M-100")),
                 ("upc", some (.str "012345")),
                 ("ean", some (.str "99001")),
                 ("color", some (.str "Red")),
                 ("material", some (.str "Steel")),
                 ("size", some (.str "3 oz")),
                 ("brand_name_normalized", some (.str "nike")),
                 ("product_name_normalized", some (.str "alpha")),
                 ("color_normalized", some (.str "red")),
                 ("material_normalized", some (.str "steel"))]⟩,
         ⟨"A2", [("brand_name", some (.str "Adidas")),
                 ("product_name", some (.str "beta")),
                 ("model_number", some (.str "M-100")),
                 ("upc", some (.str "012345")),
                 ("ean", some (.str "99001")),
                 ("color", some (.str "Red")),
                 ("material", some (.str "Steel")),
                 ("brand_name_normalized", some (.str "adidas")),
                 ("product_name_normalized", some (.str "beta")),
                 ("color_normalized", some (.str "red")),
                 ("material_normalized", some (.str "steel"))]⟩]⟩
      ⟨"A1", [("brand_name", some (.str "Nike")),
                 ("product_name", some (.str "alpha")),
                 ("model_number", some (.str "M-100")),
                 ("upc", some (.str "012345")),
                 ("ean", some (.str "99001")),
                 ("color", some (.str "Red")),
                 ("material", some (.str "Steel")),
                 ("size", some (.str "3 oz")),
                 ("brand_name_normalized", some (.str "nike")),
                 ("product_name_normalized", some (.str "alpha")),
                 ("color_normalized", some (.str "red")),
                 ("material_normalized", some (.str "steel"))]⟩
      ⟨"A2", [("brand_name", some (.str "Adidas")),
                 ("product_name", some (.str "beta")),
                 ("model_number", some (.str "M-100")),
                 ("upc", some (.str "012345")),
                 ("ean", some (.str "99001")),
                 ("color", some (.str "Red")),
                 ("material", some (.str "Steel")),
                 ("brand_name_normalized", some (.str "adidas")),
                 ("product_name_normalized", some (.str "beta")),
                 ("color_normalized", some (.str "red")),
                 ("material_normalized", some (.str "steel"))]⟩ = none := by
    simp only [pairCandidate,
      show matchBrand
        (getStr ⟨"A1", [("brand_name", some (.str "Nike")),
                 ("product_name", some (.str "alpha")),
                 ("model_number", some (.str "M-100")),
                 ("upc", some (.str "012345")),
                 ("ean", some (.str "99001")),
                 ("color", some (.str "Red")),
                 ("material", some (.str "Steel")),
                 ("size", some (.str "3 oz")),
                 ("brand_name_normalized", some (.str "nike")),
                 ("product_name_normalized", some (.str "alpha")),
                 ("color_normalized", some (.str "red")),
                 ("material_normalized", some (.str "steel"))]⟩
          "brand_name_normalized")
        (getStr ⟨"A2", [("brand_name", some (.str "Adidas")),
                 ("product_name", some (.str "beta")),
                 ("model_number", some (.str "M-100")),
                 ("upc", some (.str "012345")),
                 ("ean", some (.str "99001")),
                 ("color", some (.str "Red")),
                 ("material", some (.str "Steel")),
                 ("brand_name_normalized", some (.str "adidas")),
                 ("product_name_normalized", some (.str "beta")),
                 ("color_normalized", some (.str "red")),
                 ("material_normalized", some (.str "steel"))]⟩
          "brand_name_normalized") = false from by decide]
    norm_num [nameSim_alpha_beta,
      show getStr ⟨"A1", [("brand_name", some (.str "Nike")),
                 ("product_name", some (.str "alpha")),
                 ("model_number", some (.str "M-100")),
                 ("upc", some (.str "012345")),
                 ("ean", some (.str "99001")),
                 ("color", some (.str "Red")),
                 ("material", some (.str "Steel")),
                 ("size", some (.str "3 oz")),
                 ("brand_name_normalized", some (.str "nike")),
                 ("product_name_normalized", some (.str "alpha")),
                 ("color_normalized", some (.str "red")),
                 ("material_normalized", some (.str "steel"))]⟩
        "product_name_normalized" = "alpha" from by decide,
      show getStr ⟨"A2", [("brand_name", some (.str "Adidas")),
                 ("product_name", some (.str "beta")),
                 ("model_number", some (.str "M-100")),
                 ("upc", some (.str "012345")),
                 ("ean", some (.str "99001")),
                 ("color", some (.str "Red")),
                 ("material", some (.str "Steel")),
                 ("brand_name_normalized", some (.str "adidas")),
                 ("product_name_normalized", some (.str "beta")),
                 ("color_normalized", some (.str "red")),
                 ("material_normalized", some (.str "steel"))]⟩
        "product_name_normalized" = "beta" from by decide,
      show (Row.get ⟨"A1", [("brand_name", some (.str "Nike")),
                 ("product_name", some (.str "alpha")),
                 ("model_number", some (.str "M-100")),
                 ("upc", some (.str "012345")),
                 ("ean", some (.str "99001")),
                 ("color", some (.str "Red")),
                 ("material", some (.str "Steel")),
                 ("size", some (.str "3 oz")),
                 ("brand_name_normalized", some (.str "nike")),
                 ("product_name_normalized", some (.str "alpha")),
                 ("color_normalized", some (.str "red")),
                 ("material_normalized", some (.str "steel"))]⟩
        "size") = some (.str "3 oz") from by decide,
      show (Row.get ⟨"A2", [("brand_name", some (.str "Adidas")),
                 ("product_name", some (.str "beta")),
                 ("model_number", some (.str "M-100")),
                 ("upc", some (.str "012345")),
                 ("ean", some (.str "99001")),
                 ("color", some (.str "Red")),
                 ("material", some (.str "Steel")),
                 ("brand_name_normalized", some (.str "adidas")),
                 ("product_name_normalized", some (.str "beta")),
                 ("color_normalized", some (.str "red")),
                 ("material_normalized", some (.str "steel"))]⟩
        "size") = none from by decide,
      show matchSize (some (.str "3 oz")) none = false from by decide,
      show ¬("price" = "sku" ∨ "price" = "brand_name" ∨
        "price" = "product_name" ∨ "price" = "model_number" ∨
        "price" = "upc" ∨ "price" = "ean" ∨ "price" = "color" ∨
        "price" = "material" ∨ "price" = "size" ∨
        "price" = "brand_name_normalized" ∨
        "price" = "product_name_normalized" ∨ "price" = "color_normalized" ∨
        "price" = "material_normalized") from by decide]
  show fuzzyPairsLoop
      (normalizeTextFields
        ⟨["sku", "brand_name", "product_name", "model_number", "upc", "ean",
          "color", "material", "size"],
        [⟨"A1", [("brand_name", some (.str "Nike")),
                 ("product_name", some (.str "alpha")),
                 ("model_number", some (.str "M-100")),
                 ("upc", some (.str "012345")),
                 ("ean", some (.str "99001")),
                 ("color", some (.str "Red")),
                 ("material", some (.str "Steel")),
                 ("size", some (.str "3 oz"))]⟩,
         ⟨"A2", [("brand_name", some (.str "Adidas")),
                 ("product_name", some (.str "beta")),
                 ("model_number", some (.str "M-100")),
                 ("upc", some (.str "012345")),
                 ("ean", some (.str "99001")),
                 ("color", some (.str "Red")),
                 ("material", some (.str "Steel"))]⟩]⟩)
      (normalizeTextFields
        ⟨["sku", "brand_name", "product_name", "model_number", "upc", "ean",
          "color", "material", "size"],
        [⟨"A1", [("brand_name", some (.str "Nike")),
                 ("product_name", some (.str "alpha")),
                 ("model_number", some (.str "M-100")),
                 ("upc", some (.str "012345")),
                 ("ean", some (.str "99001")),
                 ("color", some (.str "Red")),
                 ("material", some (.str "Steel")),
                 ("size", some (.str "3 oz"))]⟩,
         ⟨"A2", [("brand_name", some (.str "Adidas")),
                 ("product_name", some (.str "beta")),
                 ("model_number", some (.str "M-100")),
                 ("upc", some (.str "012345")),
                 ("ean", some (.str "99001")),
                 ("color", some (.str "Red")),
                 ("material", some (.str "Steel"))]⟩]⟩).rows = _
  rw [hnorm]
  simp only [fuzzyPairsLoop, hpair, List.filterMap_cons, List.filterMap_nil,
    List.append_nil, List.nil_append]

theorem lookup_append {α β : Type _} [DecidableEq α] (l1 l2 : List (α × β))
    (a : α) :
    List.lookup a (l1 ++ l2) =
      match List.lookup a l1 with
      | some v => some v
      | none => List.lookup a l2 := by
  induction l1 with
  | nil => simp [List.lookup]
  | cons kv l1 ih =>
      obtain ⟨k, v⟩ := kv
      by_cases h : a = k
      · subst h
        simp [List.lookup]
      · have hb : (a == k) = false := beq_eq_false_iff_ne.mpr h
        simp [List.lookup, hb, ih]

theorem addNormalizedColumn_spec (df : Catalog) (f : String) :
    (df.cols <+: (addNormalizedColumn df f).cols) ∧
    (∀ c ∈ (addNormalizedColumn df f).cols,
      c ∈ df.cols ∨ c = f ++ "_normalized") ∧
    (addNormalizedColumn df f).rows.map Row.sku = df.rows.map Row.sku ∧
    (∀ c, ¬(c = f ++ "_normalized") →
      (addNormalizedColumn df f).rows.map (fun r => r.get c)
        = df.rows.map (fun r => r.get c)) := by
  rw [addNormalizedColumn]
  by_cases hf : f ∈ df.cols
  · rw [if_pos hf]
    refine ⟨List.prefix_append _ _, ?_, ?_, ?_⟩
    · intro c hc
      rcases List.mem_append.mp hc with h | h
      · exact Or.inl h
      · simp only [List.mem_singleton] at h
        exact Or.inr h
    · simp [List.map_map]
    · intro c hc
      simp only [List.map_map]
      apply List.map_congr_left
      intro r _
      simp only [Function.comp]
      show Row.get _ c = r.get c
      have hone : ∀ v : Option PVal,
          List.lookup c [(f ++ "_normalized", v)] = none := by
        intro v
        have hb : (c == f ++ "_normalized") = false :=
          beq_eq_false_iff_ne.mpr hc
        simp [List.lookup, hb]
      simp only [Row.get, lookup_append]
      cases h : List.lookup c r.cells
      · simp [h, hone]
      · simp [h]
  · rw [if_neg hf]
    exact ⟨List.prefix_rfl, fun c hc => Or.inl hc, rfl, fun c _ => rfl⟩

/-- C8 amended: `_find_by_fuzzy_attributes` mutates the caller's products
DataFrame by appending the `<field>_normalized` columns in place; apart from
these appended columns, the frame is intact — the original columns stay (as
a prefix, with their cell values untouched in every row), the rows keep
their SKUs and order, and the embeddings input is never modified (the
embedding strategy is a placeholder that reads nothing). -/
theorem detect_mutates_only_normalized_columns (products embeddings : Catalog)
    (thr : ℚ)
    (hfresh : ∀ f ∈ textFields, ¬(f ++ "_normalized") ∈ products.cols) :
    products.cols <+:
      (detectDuplicatesMultiStrategy products embeddings thr).2.cols ∧
    (∀ c ∈ (detectDuplicatesMultiStrategy products embeddings thr).2.cols,
      c ∈ products.cols ∨ ∃ f ∈ textFields, c = f ++ "_normalized") ∧
    (detectDuplicatesMultiStrategy products embeddings thr).2.rows.map Row.sku
      = products.rows.map Row.sku ∧
    (∀ c ∈ products.cols,
      (detectDuplicatesMultiStrategy products embeddings thr).2.rows.map
          (fun r => r.get c)
        = products.rows.map (fun r => r.get c)) := by
  have hout : (detectDuplicatesMultiStrategy products embeddings thr).2 =
      addNormalizedColumn (addNormalizedColumn (addNormalizedColumn
        (addNormalizedColumn products "brand_name") "product_name") "color")
        "material" := rfl
  rw [hout]
  obtain ⟨p1, q1, s1, g1⟩ := addNormalizedColumn_spec products "brand_name"
  obtain ⟨p2, q2, s2, g2⟩ :=
    addNormalizedColumn_spec (addNormalizedColumn products "brand_name")
      "product_name"
  obtain ⟨p3, q3, s3, g3⟩ :=
    addNormalizedColumn_spec (addNormalizedColumn (addNormalizedColumn
      products "brand_name") "product_name") "color"
  obtain ⟨p4, q4, s4, g4⟩ :=
    addNormalizedColumn_spec (addNormalizedColumn (addNormalizedColumn
      (addNormalizedColumn products "brand_name") "product_name") "color")
      "material"
  refine ⟨p1.trans (p2.trans (p3.trans p4)), ?_, ?_, ?_⟩
  · intro c hc
    rcases q4 c hc with hc3 | rfl
    · rcases q3 c hc3 with hc2 | rfl
      · rcases q2 c hc2 with hc1 | rfl
        · rcases q1 c hc1 with hc0 | rfl
          · exact Or.inl hc0
          · exact Or.inr ⟨"brand_name", by simp [textFields]⟩
        · exact Or.inr ⟨"product_name", by simp [textFields]⟩
      · exact Or.inr ⟨"color", by simp [textFields]⟩
    · exact Or.inr ⟨"material", by simp [textFields]⟩
  · rw [s4, s3, s2, s1]
  · intro c hc
    have hne : ∀ f ∈ textFields, ¬(c = f ++ "_normalized") := by
      intro f hf heq
      exact hfresh f hf (heq ▸ hc)
    rw [g4 c (hne "material" (by simp [textFields])),
      g3 c (hne "color" (by simp [textFields])),
      g2 c (hne "product_name" (by simp [textFields])),
      g1 c (hne "brand_name" (by simp [textFields]))]

/-- C8 witness: the mutation-frame theorem applied to a one-row catalog. -/
theorem detect_mutates_only_normalized_columns_witness :
    (⟨["sku", "brand_name"],
        [⟨"X", [("brand_name", some (.str "B"))]⟩]⟩ : Catalog).cols <+:
      (detectDuplicatesMultiStrategy
        ⟨["sku", "brand_name"], [⟨"X", [("brand_name", some (.str "B"))]⟩]⟩
        ⟨[], []⟩ (17/20)).2.cols ∧
    (∀ c ∈ (detectDuplicatesMultiStrategy
        ⟨["sku", "brand_name"], [⟨"X", [("brand_name", some (.str "B"))]⟩]⟩
        ⟨[], []⟩ (17/20)).2.cols,
      c ∈ (⟨["sku", "brand_name"],
        [⟨"X", [("brand_name", some (.str "B"))]⟩]⟩ : Catalog).cols ∨
        ∃ f ∈ textFields, c = f ++ "_normalized") ∧
    (detectDuplicatesMultiStrategy
        ⟨["sku", "brand_name"], [⟨"X", [("brand_name", some (.str "B"))]⟩]⟩
        ⟨[], []⟩ (17/20)).2.rows.map Row.sku
      = (⟨["sku", "brand_name"],
        [⟨"X", [("brand_name", some (.str "B"))]⟩]⟩ : Catalog).rows.map
          Row.sku ∧
    (∀ c ∈ (⟨["sku", "brand_name"],
        [⟨"X", [("brand_name", some (.str "B"))]⟩]⟩ : Catalog).cols,
      (detectDuplicatesMultiStrategy
          ⟨["sku", "brand_name"], [⟨"X", [("brand_name", some (.str "B"))]⟩]⟩
          ⟨[], []⟩ (17/20)).2.rows.map (fun r => r.get c)
        = (⟨["sku", "brand_name"],
          [⟨"X", [("brand_name", some (.str "B"))]⟩]⟩ : Catalog).rows.map
            (fun r => r.get c)) :=
  detect_mutates_only_normalized_columns _ _ _ (by decide)

/-- C8 counterexample: running the detector over a catalog changes the
column set of the products DataFrame — after the call it carries
`brand_name_normalized` — so the input frame is not identical before and
after. -/
theorem detect_changes_input_columns :
    (detectDuplicatesMultiStrategy
        ⟨["sku", "brand_name"], [⟨"X", [("brand_name", some (.str "B"))]⟩]⟩
        ⟨[], []⟩ (17/20)).2.cols
      = ["sku", "brand_name", "brand_name_normalized"] ∧
    ¬((detectDuplicatesMultiStrategy
        ⟨["sku", "brand_name"], [⟨"X", [("brand_name", some (.str "B"))]⟩]⟩
        ⟨[], []⟩ (17/20)).2.cols = ["sku", "brand_name"]) := by
  constructor
  · rfl
  · intro h
    exact absurd (congrArg List.length h) (by decide)

theorem foldl_max_spec (l : List ℚ) :
    ∀ a : ℚ, (l.foldl max a ∈ a :: l) ∧ ∀ x ∈ a :: l, x ≤ l.foldl max a := by
  induction l with
  | nil => intro a; simp
  | cons b l ih =>
      intro a
      obtain ⟨hmem, hle⟩ := ih (max a b)
      constructor
      · rw [List.foldl_cons]
        rcases List.mem_cons.mp hmem with h | h
        · rw [h]
          rcases max_choice a b with hm | hm <;> rw [hm] <;>
            simp [List.mem_cons]
        · exact List.mem_cons_of_mem _ (List.mem_cons_of_mem _ h)
      · intro x hx
        rw [List.foldl_cons]
        rcases List.mem_cons.mp hx with rfl | hx2
        · exact le_trans (le_max_left x b) (hle _ (List.mem_cons_self _ _))
        · rcases List.mem_cons.mp hx2 with rfl | hx3
          · exact le_trans (le_max_right a x) (hle _ (List.mem_cons_self _ _))
          · exact hle x (List.mem_cons_of_mem _ hx3)

theorem dedupFO_length_eq_toFinset_card {α : Type _} [DecidableEq α]
    (l : List α) : (dedupFO l).length = l.toFinset.card := by
  have h1 : (dedupFO l).toFinset = l.toFinset := by
    ext a
    simp [List.mem_toFinset, mem_dedupFO]
  rw [← h1, List.toFinset_card_of_nodup (nodup_dedupFO l)]

theorem candidate_maxSim_foldl (cs : List Candidate) (a : ℚ) :
    cs.foldl (fun x c2 => max x c2.similarity_score) a =
      (cs.map Candidate.similarity_score).foldl max a := by
  rw [List.foldl_map]

/-- C3: for every nonempty group of candidates sharing a pair key, the
merged confidence equals `min(max similarity + 0.1 * distinct reasons, 1)`
(stated via a maximal witness `c0` and the `Finset` of distinct reason
strings); adding one candidate with a fresh reason never decreases the
merged confidence; and when all similarity scores lie in `[0, 1]`, so does
the merged confidence. -/
theorem mergeGroup_confidence_spec :
    (∀ (k : String × String) (g : List Candidate), ¬(g = []) →
      ∃ c0 ∈ g, (mergeGroup k g).confidence =
          min (c0.similarity_score +
            ((g.map Candidate.reason).toFinset.card : ℚ) * (1/10)) 1 ∧
        ∀ c ∈ g, c.similarity_score ≤ c0.similarity_score) ∧
    (∀ (k : String × String) (g : List Candidate) (c : Candidate),
      ¬(g = []) → ¬(c.reason ∈ g.map Candidate.reason) →
      (mergeGroup k g).confidence ≤ (mergeGroup k (g ++ [c])).confidence) ∧
    (∀ (k : String × String) (g : List Candidate), ¬(g = []) →
      (∀ c ∈ g, 0 ≤ c.similarity_score ∧ c.similarity_score ≤ 1) →
      0 ≤ (mergeGroup k g).confidence ∧ (mergeGroup k g).confidence ≤ 1) := by
  have hmax : ∀ (c : Candidate) (cs : List Candidate),
      (cs.foldl (fun x c2 => max x c2.similarity_score) c.similarity_score
          ∈ (c :: cs).map Candidate.similarity_score) ∧
        ∀ x ∈ (c :: cs).map Candidate.similarity_score,
          x ≤ cs.foldl (fun x c2 => max x c2.similarity_score)
            c.similarity_score := by
    intro c cs
    rw [candidate_maxSim_foldl]
    obtain ⟨h1, h2⟩ := foldl_max_spec (cs.map Candidate.similarity_score)
      c.similarity_score
    exact ⟨by simpa using h1, by simpa using h2⟩
  have hconf : ∀ (k : String × String) (c : Candidate) (cs : List Candidate),
      (mergeGroup k (c :: cs)).confidence =
        min ((cs.foldl (fun x c2 => max x c2.similarity_score)
            c.similarity_score) +
          (((c :: cs).map Candidate.reason).toFinset.card : ℚ) * (1/10)) 1 := by
    intro k c cs
    simp only [mergeGroup, dedupFO_length_eq_toFinset_card]
  refine ⟨?_, ?_, ?_⟩
  · intro k g hg
    obtain ⟨c, cs, rfl⟩ := List.exists_cons_of_ne_nil hg
    obtain ⟨h1, h2⟩ := hmax c cs
    rcases List.mem_map.mp h1 with ⟨c0, hc0, hc0eq⟩
    refine ⟨c0, hc0, ?_, ?_⟩
    · rw [hconf, hc0eq]
    · intro c2 hc2
      rw [hc0eq]
      exact h2 _ (List.mem_map_of_mem _ hc2)
  · intro k g c hg hfresh
    obtain ⟨c1, cs, rfl⟩ := List.exists_cons_of_ne_nil hg
    rw [hconf, List.cons_append, hconf]
    have hm : cs.foldl (fun x c2 => max x c2.similarity_score)
        c1.similarity_score ≤
        (cs ++ [c]).foldl (fun x c2 => max x c2.similarity_score)
          c1.similarity_score := by
      rw [candidate_maxSim_foldl, candidate_maxSim_foldl, List.map_append,
        List.foldl_append]
      simp only [List.map_cons, List.map_nil, List.foldl_cons, List.foldl_nil]
      exact le_max_left _ _
    have hcard : (((c1 :: cs ++ [c]).map Candidate.reason).toFinset.card : ℚ)
        = (((c1 :: cs).map Candidate.reason).toFinset.card : ℚ) + 1 := by
      have : ((c1 :: cs ++ [c]).map Candidate.reason).toFinset =
          insert c.reason ((c1 :: cs).map Candidate.reason).toFinset := by
        ext x
        simp only [List.mem_toFinset, ← List.cons_append, List.map_append,
          List.map_cons, List.map_nil, List.mem_append, List.mem_cons,
          List.mem_singleton, Finset.mem_insert, List.not_mem_nil, or_false]
        tauto
      rw [this, Finset.card_insert_of_not_mem (by
        simpa [List.mem_toFinset] using hfresh)]
      push_cast
      ring
    rw [← List.cons_append, hcard]
    apply min_le_min _ le_rfl
    have : (0 : ℚ) ≤ 1 * (1/10) := by norm_num
    nlinarith [hm]
  · intro k g hg hbound
    obtain ⟨c, cs, rfl⟩ := List.exists_cons_of_ne_nil hg
    rw [hconf]
    obtain ⟨h1, h2⟩ := hmax c cs
    rcases List.mem_map.mp h1 with ⟨c0, hc0, hc0eq⟩
    constructor
    · apply le_min
      · have hge : 0 ≤ c0.similarity_score := (hbound c0 hc0).1
        have hcard : (0 : ℚ) ≤
            (((c :: cs).map Candidate.reason).toFinset.card : ℚ) := by
          positivity
        rw [hc0eq] at hge
        linarith
      · norm_num
    · exact min_le_right _ _

/-- C3 witness: the confidence formula, monotonicity and bounds at a
concrete singleton group extended by a fresh-reason candidate. -/
theorem mergeGroup_confidence_spec_witness :
    (∃ c0 ∈ [(⟨"A", "B", 9/10, [], 9/10, "r"⟩ : Candidate)],
      (mergeGroup ("A", "B")
          [(⟨"A", "B", 9/10, [], 9/10, "r"⟩ : Candidate)]).confidence =
        min (c0.similarity_score +
          ((([(⟨"A", "B", 9/10, [], 9/10, "r"⟩ : Candidate)]).map
            Candidate.reason).toFinset.card : ℚ) * (1/10)) 1 ∧
      ∀ c ∈ [(⟨"A", "B", 9/10, [], 9/10, "r"⟩ : Candidate)],
        c.similarity_score ≤ c0.similarity_score) ∧
    (mergeGroup ("A", "B")
        [(⟨"A", "B", 9/10, [], 9/10, "r"⟩ : Candidate)]).confidence ≤
      (mergeGroup ("A", "B")
        ([(⟨"A", "B", 9/10, [], 9/10, "r"⟩ : Candidate)] ++
          [(⟨"A", "B", 1/2, [], 1/2, "s"⟩ : Candidate)])).confidence ∧
    (0 ≤ (mergeGroup ("A", "B")
        [(⟨"A", "B", 9/10, [], 9/10, "r"⟩ : Candidate)]).confidence ∧
      (mergeGroup ("A", "B")
        [(⟨"A", "B", 9/10, [], 9/10, "r"⟩ : Candidate)]).confidence ≤ 1) :=
  ⟨mergeGroup_confidence_spec.1 ("A", "B") _ (by simp),
    mergeGroup_confidence_spec.2.1 ("A", "B") _ _ (by simp) (by simp),
    mergeGroup_confidence_spec.2.2 ("A", "B") _ (by simp)
      (by intro c hc; simp at hc; subst hc; norm_num)⟩

theorem charListLe_total (l1 l2 : List Char) :
    charListLe l1 l2 = true ∨ charListLe l2 l1 = true := by
  induction l1 generalizing l2 with
  | nil => left; rfl
  | cons a as ih =>
      cases l2 with
      | nil => right; rfl
      | cons b bs =>
          rcases Nat.lt_trichotomy a.toNat b.toNat with h | h | h
          · left
            simp [charListLe, h]
          · have hn1 : ¬a.toNat < b.toNat := by omega
            have hn2 : ¬b.toNat < a.toNat := by omega
            rcases ih bs with hle | hle
            · left
              simp [charListLe, hn1, hn2, hle]
            · right
              simp [charListLe, hn1, hn2, hle]
          · right
            simp [charListLe, h]

theorem charListLe_antisymm (l1 l2 : List Char)
    (h1 : charListLe l1 l2 = true) (h2 : charListLe l2 l1 = true) :
    l1 = l2 := by
  induction l1 generalizing l2 with
  | nil =>
      cases l2 with
      | nil => rfl
      | cons b bs => simp [charListLe] at h2
  | cons a as ih =>
      cases l2 with
      | nil => simp [charListLe] at h1
      | cons b bs =>
          rcases Nat.lt_trichotomy a.toNat b.toNat with h | h | h
          · have hna : ¬b.toNat < a.toNat := by omega
            simp [charListLe, h, hna] at h2
          · have hn1 : ¬a.toNat < b.toNat := by omega
            have hn2 : ¬b.toNat < a.toNat := by omega
            simp only [charListLe, hn1, hn2, if_false, if_neg] at h1 h2
            have hab : a = b := Char.eq_of_val_eq (UInt32.ext h)
            rw [hab, ih bs h1 h2]
          · have hna : ¬a.toNat < b.toNat := by omega
            simp [charListLe, h, hna] at h1

theorem charListLe_trans (l1 l2 l3 : List Char)
    (h1 : charListLe l1 l2 = true) (h2 : charListLe l2 l3 = true) :
    charListLe l1 l3 = true := by
  induction l1 generalizing l2 l3 with
  | nil => rfl
  | cons a as ih =>
      cases l2 with
      | nil => simp [charListLe] at h1
      | cons b bs =>
          cases l3 with
          | nil => simp [charListLe] at h2
          | cons c cs =>
              have htri := Nat.lt_trichotomy a.toNat b.toNat
              have htri2 := Nat.lt_trichotomy b.toNat c.toNat
              rcases htri with hab | hab | hab
              · rcases htri2 with hbc | hbc | hbc
                · simp [charListLe, Nat.lt_trans hab hbc]
                · simp [charListLe, hbc ▸ hab]
                · exfalso
                  have hn : ¬b.toNat < c.toNat := by omega
                  simp [charListLe, hn, hbc] at h2
              · rcases htri2 with hbc | hbc | hbc
                · simp [charListLe, hab ▸ hbc]
                · have hac : a.toNat = c.toNat := hab.trans hbc
                  simp only [charListLe, show ¬a.toNat < b.toNat by omega,
                    show ¬b.toNat < a.toNat by omega, if_false, if_neg] at h1
                  simp only [charListLe, show ¬b.toNat < c.toNat by omega,
                    show ¬c.toNat < b.toNat by omega, if_false, if_neg] at h2
                  simp only [charListLe, show ¬a.toNat < c.toNat by omega,
                    show ¬c.toNat < a.toNat by omega, if_false, if_neg]
                  exact ih bs cs h1 h2
                · exfalso
                  have hn : ¬b.toNat < c.toNat := by omega
                  simp [charListLe, hn, hbc] at h2
              · exfalso
                have hn : ¬a.toNat < b.toNat := by omega
                simp [charListLe, hn, hab] at h1

theorem pyStrLe_total (a b : String) :
    pyStrLe a b = true ∨ pyStrLe b a = true :=
  charListLe_total a.toList b.toList

theorem pyStrLe_antisymm (a b : String) (h1 : pyStrLe a b = true)
    (h2 : pyStrLe b a = true) : a = b := by
  have h := charListLe_antisymm a.toList b.toList h1 h2
  cases a with
  | mk d1 =>
      cases b with
      | mk d2 =>
          have h2 : d1 = d2 := h
          rw [h2]

theorem pyStrLe_trans (a b c : String) (h1 : pyStrLe a b = true)
    (h2 : pyStrLe b c = true) : pyStrLe a c = true :=
  charListLe_trans a.toList b.toList c.toList h1 h2

theorem insertSortedStr_comm (x y : String) (S : List String) :
    insertSortedStr y (insertSortedStr x S) =
      insertSortedStr x (insertSortedStr y S) := by
  induction S with
  | nil =>
      by_cases hxy : pyStrLe x y = true <;> by_cases hyx : pyStrLe y x = true
      · rw [pyStrLe_antisymm x y hxy hyx]
      · simp [insertSortedStr, hxy, hyx]
      · simp [insertSortedStr, hxy, hyx]
      · rcases pyStrLe_total x y with h | h
        · exact absurd h hxy
        · exact absurd h hyx
  | cons t ts ih =>
      by_cases hxt : pyStrLe x t = true <;> by_cases hyt : pyStrLe y t = true
      · by_cases hxy : pyStrLe x y = true <;>
          by_cases hyx : pyStrLe y x = true
        · rw [pyStrLe_antisymm x y hxy hyx]
        · simp [insertSortedStr, hxt, hyt, hxy, hyx]
        · simp [insertSortedStr, hxt, hyt, hxy, hyx]
        · rcases pyStrLe_total x y with h | h
          · exact absurd h hxy
          · exact absurd h hyx
      · have hyx : ¬(pyStrLe y x = true) := by
          intro hyx
          exact hyt (pyStrLe_trans y x t hyx hxt)
        simp [insertSortedStr, hxt, hyt, hyx]
      · have hxy : ¬(pyStrLe x y = true) := by
          intro hxy
          exact hxt (pyStrLe_trans x y t hxy hyt)
        simp [insertSortedStr, hxt, hyt, hxy]
      · simp [insertSortedStr, hxt, hyt, ih]

theorem sortStrings_perm_invariant {l1 l2 : List String} (h : l1.Perm l2) :
    sortStrings l1 = sortStrings l2 := by
  induction h with
  | nil => rfl
  | cons x _ ih =>
      show insertSortedStr x (sortStrings _) = insertSortedStr x (sortStrings _)
      rw [ih]
  | swap x y l =>
      show insertSortedStr y (insertSortedStr x (sortStrings l)) =
        insertSortedStr x (insertSortedStr y (sortStrings l))
      exact insertSortedStr_comm x y (sortStrings l)
  | trans _ _ ih1 ih2 => exact ih1.trans ih2

theorem dedupFO_perm {α : Type _} [DecidableEq α] {l1 l2 : List α}
    (h : l1.Perm l2) : (dedupFO l1).Perm (dedupFO l2) :=
  (List.perm_ext_iff_of_nodup (nodup_dedupFO l1) (nodup_dedupFO l2)).mpr
    (fun a => by simp [mem_dedupFO, h.mem_iff])

theorem insertByConfidence_perm (l : List Candidate) (c : Candidate) :
    (insertByConfidence l c).Perm (c :: l) := by
  induction l with
  | nil => exact List.Perm.refl _
  | cons d ds ih =>
      simp only [insertByConfidence]
      split
      · exact (ih.cons d).trans (List.Perm.swap c d ds)
      · exact List.Perm.refl _

theorem sortByConfidenceDesc_perm_aux (l : List Candidate) :
    ∀ acc : List Candidate,
      (l.foldl insertByConfidence acc).Perm (acc ++ l) := by
  induction l with
  | nil => intro acc; simp
  | cons x xs ih =>
      intro acc
      rw [List.foldl_cons]
      refine (ih (insertByConfidence acc x)).trans ?_
      refine (((insertByConfidence_perm acc x).append_right xs).trans ?_)
      exact List.perm_middle.symm

theorem sortByConfidenceDesc_perm (l : List Candidate) :
    (sortByConfidenceDesc l).Perm l := by
  simpa using sortByConfidenceDesc_perm_aux l []

theorem maxSim_foldl_spec (c : Candidate) (cs : List Candidate) :
    (cs.foldl (fun x c2 => max x c2.similarity_score) c.similarity_score
        ∈ (c :: cs).map Candidate.similarity_score) ∧
      ∀ x ∈ (c :: cs).map Candidate.similarity_score,
        x ≤ cs.foldl (fun x c2 => max x c2.similarity_score)
          c.similarity_score := by
  rw [candidate_maxSim_foldl]
  obtain ⟨h1, h2⟩ := foldl_max_spec (cs.map Candidate.similarity_score)
    c.similarity_score
  exact ⟨by simpa using h1, by simpa using h2⟩

theorem mergeGroup_proj_perm (k : String × String) {g1 g2 : List Candidate}
    (h : g1.Perm g2) :
    candProjection (mergeGroup k g1) = candProjection (mergeGroup k g2) := by
  cases g1 with
  | nil =>
      have h2 : g2 = [] := h.symm.eq_nil
      rw [h2]
  | cons c1 cs1 =>
      cases g2 with
      | nil => exact absurd h.eq_nil (by simp)
      | cons c2 cs2 =>
          have hsims : ((c1 :: cs1).map Candidate.similarity_score).Perm
              ((c2 :: cs2).map Candidate.similarity_score) := h.map _
          obtain ⟨hm1, hb1⟩ := maxSim_foldl_spec c1 cs1
          obtain ⟨hm2, hb2⟩ := maxSim_foldl_spec c2 cs2
          have hmaxeq : cs1.foldl (fun x c2 => max x c2.similarity_score)
              c1.similarity_score =
              cs2.foldl (fun x c2 => max x c2.similarity_score)
                c2.similarity_score :=
            le_antisymm (hb2 _ (hsims.mem_iff.mp hm1))
              (hb1 _ (hsims.mem_iff.mpr hm2))
          have hreasons : ((c1 :: cs1).map Candidate.reason).Perm
              ((c2 :: cs2).map Candidate.reason) := h.map _
          have hdedup := dedupFO_perm hreasons
          simp only [candProjection, mergeGroup, hmaxeq, hdedup.length_eq,
            joinReasons, sortStrings_perm_invariant hdedup]

/-- C2 amended: merging is order-independent up to the output order of
equal-confidence pairs and the insertion order of the attribute dict — for
every permutation of the input candidate list, the merged outputs carry the
same multiset of (pair key, similarity_score, confidence, reason)
records. -/
theorem mergeCandidates_perm_invariant (l1 l2 : List Candidate)
    (h : l1.Perm l2) :
    ((mergeCandidates l1).map candProjection).Perm
      ((mergeCandidates l2).map candProjection) := by
  have hkeys : (dedupFO (l1.map pairKey)).Perm (dedupFO (l2.map pairKey)) :=
    dedupFO_perm (h.map pairKey)
  have hpoint : ∀ k : String × String,
      candProjection (mergeGroup k (l1.filter (fun x => pairKey x = k))) =
        candProjection (mergeGroup k (l2.filter (fun x => pairKey x = k))) :=
    fun k => mergeGroup_proj_perm k (h.filter _)
  have hside : ∀ l : List Candidate,
      ((mergeCandidates l).map candProjection).Perm
        ((dedupFO (l.map pairKey)).map (fun k =>
          candProjection (mergeGroup k (l.filter (fun x => pairKey x = k))))) := by
    intro l
    refine ((sortByConfidenceDesc_perm _).map candProjection).trans ?_
    rw [groupByKey_eq, List.map_map, List.map_map]
    exact List.Perm.refl _
  refine (hside l1).trans (.trans ?_ (hside l2).symm)
  refine (hkeys.map _).trans ?_
  rw [List.map_congr_left (fun k _ => hpoint k)]

/-- C2 witness: the permutation-invariance theorem applied to a two-element
input and its transposition. -/
theorem mergeCandidates_perm_invariant_witness :
    ((mergeCandidates
        [⟨"A", "B", 9/10, [("x", true)], 9/10, "r1"⟩,
         ⟨"C", "D", 9/10, [("y", true)], 9/10, "r1"⟩]).map candProjection).Perm
      ((mergeCandidates
        [⟨"C", "D", 9/10, [("y", true)], 9/10, "r1"⟩,
         ⟨"A", "B", 9/10, [("x", true)], 9/10, "r1"⟩]).map candProjection) :=
  mergeCandidates_perm_invariant _ _ (List.Perm.swap _ _ _)

/-- C2 counterexample: two equal-confidence candidates on different pairs.
The pair map lists keys in first-occurrence order and the final sort is
stable, so transposing the input transposes the output: the merged lists
are permutations of each other but not identical, refuting "same output
order". -/
theorem mergeCandidates_not_order_identical :
    ([(⟨"A", "B", 9/10, [("x", true)], 9/10, "r1"⟩ : Candidate),
      ⟨"C", "D", 9/10, [("y", true)], 9/10, "r1"⟩].Perm
      [(⟨"C", "D", 9/10, [("y", true)], 9/10, "r1"⟩ : Candidate),
       ⟨"A", "B", 9/10, [("x", true)], 9/10, "r1"⟩]) ∧
    mergeCandidates
        [⟨"A", "B", 9/10, [("x", true)], 9/10, "r1"⟩,
         ⟨"C", "D", 9/10, [("y", true)], 9/10, "r1"⟩] =
      [⟨"A", "B", 9/10, [("x", true)], 1, "r1"⟩,
       ⟨"C", "D", 9/10, [("y", true)], 1, "r1"⟩] ∧
    mergeCandidates
        [⟨"C", "D", 9/10, [("y", true)], 9/10, "r1"⟩,
         ⟨"A", "B", 9/10, [("x", true)], 9/10, "r1"⟩] =
      [⟨"C", "D", 9/10, [("y", true)], 1, "r1"⟩,
       ⟨"A", "B", 9/10, [("x", true)], 1, "r1"⟩] ∧
    ¬(mergeCandidates
        [⟨"A", "B", 9/10, [("x", true)], 9/10, "r1"⟩,
         ⟨"C", "D", 9/10, [("y", true)], 9/10, "r1"⟩] =
      mergeCandidates
        [⟨"C", "D", 9/10, [("y", true)], 9/10, "r1"⟩,
         ⟨"A", "B", 9/10, [("x", true)], 9/10, "r1"⟩]) := by
  have hmAB : mergeGroup ("A", "B")
      [⟨"A", "B", 9/10, [("x", true)], 9/10, "r1"⟩]
      = ⟨"A", "B", 9/10, [("x", true)], 1, "r1"⟩ := by
    simp only [mergeGroup, dictUpdate, updAssoc, List.foldl, dedupFO,
      dedupFOAux, joinReasons, sortStrings, insertSortedStr, List.foldr,
      List.map, List.length, String.intercalate]
    norm_num [min_def]
    rfl
  have hmCD : mergeGroup ("C", "D")
      [⟨"C", "D", 9/10, [("y", true)], 9/10, "r1"⟩]
      = ⟨"C", "D", 9/10, [("y", true)], 1, "r1"⟩ := by
    simp only [mergeGroup, dictUpdate, updAssoc, List.foldl, dedupFO,
      dedupFOAux, joinReasons, sortStrings, insertSortedStr, List.foldr,
      List.map, List.length, String.intercalate]
    norm_num [min_def]
    rfl
  have hg1 : groupByKey pairKey
      [(⟨"A", "B", 9/10, [("x", true)], 9/10, "r1"⟩ : Candidate),
       ⟨"C", "D", 9/10, [("y", true)], 9/10, "r1"⟩] =
      [(("A", "B"), [⟨"A", "B", 9/10, [("x", true)], 9/10, "r1"⟩]),
       (("C", "D"), [⟨"C", "D", 9/10, [("y", true)], 9/10, "r1"⟩])] := by
    simp only [groupByKey, List.foldl, insertGrouped, pairKey]
    norm_num [show pyStrLe "A" "B" = true from by decide,
      show pyStrLe "C" "D" = true from by decide]
    decide
  have hg2 : groupByKey pairKey
      [(⟨"C", "D", 9/10, [("y", true)], 9/10, "r1"⟩ : Candidate),
       ⟨"A", "B", 9/10, [("x", true)], 9/10, "r1"⟩] =
      [(("C", "D"), [⟨"C", "D", 9/10, [("y", true)], 9/10, "r1"⟩]),
       (("A", "B"), [⟨"A", "B", 9/10, [("x", true)], 9/10, "r1"⟩])] := by
    simp only [groupByKey, List.foldl, insertGrouped, pairKey]
    norm_num [show pyStrLe "A" "B" = true from by decide,
      show pyStrLe "C" "D" = true from by decide]
    decide
  have h1 : mergeCandidates
      [(⟨"A", "B", 9/10, [("x", true)], 9/10, "r1"⟩ : Candidate),
       ⟨"C", "D", 9/10, [("y", true)], 9/10, "r1"⟩] =
      [⟨"A", "B", 9/10, [("x", true)], 1, "r1"⟩,
       ⟨"C", "D", 9/10, [("y", true)], 1, "r1"⟩] := by
    rw [mergeCandidates, hg1]
    simp only [List.map, hmAB, hmCD]
    simp only [sortByConfidenceDesc, List.foldl, insertByConfidence]
    norm_num
  have h2 : mergeCandidates
      [(⟨"C", "D", 9/10, [("y", true)], 9/10, "r1"⟩ : Candidate),
       ⟨"A", "B", 9/10, [("x", true)], 9/10, "r1"⟩] =
      [⟨"C", "D", 9/10, [("y", true)], 1, "r1"⟩,
       ⟨"A", "B", 9/10, [("x", true)], 1, "r1"⟩] := by
    rw [mergeCandidates, hg2]
    simp only [List.map, hmAB, hmCD]
    simp only [sortByConfidenceDesc, List.foldl, insertByConfidence]
    norm_num
  refine ⟨List.Perm.swap _ _ _, h1, h2, ?_⟩
  intro heq
  rw [h1, h2] at heq
  have hsk := congrArg (List.map Candidate.sku1) heq
  simp only [List.map_cons, List.map_nil] at hsk
  exact absurd hsk (by decide)

theorem mostCommonAux_spec (values : List PVal) (vs : List PVal)
    (best : PVal) :
    (mostCommonAux values vs best = best ∨ mostCommonAux values vs best ∈ vs) ∧
    values.count best ≤ values.count (mostCommonAux values vs best) ∧
    ∀ w ∈ vs, values.count w ≤ values.count (mostCommonAux values vs best) := by
  induction vs generalizing best with
  | nil => exact ⟨Or.inl rfl, le_refl _, by simp⟩
  | cons v vs ih =>
      by_cases h : values.count best < values.count v
      · obtain ⟨hmem, hge, hall⟩ := ih v
        rw [mostCommonAux, if_pos h]
        refine ⟨?_, le_trans (le_of_lt h) hge, ?_⟩
        · rcases hmem with h2 | h2
          · refine Or.inr ?_
            rw [h2]
            exact List.mem_cons_self _ _
          · exact Or.inr (List.mem_cons_of_mem _ h2)
        · intro w hw
          rcases List.mem_cons.mp hw with rfl | hw2
          · exact hge
          · exact hall w hw2
      · obtain ⟨hmem, hge, hall⟩ := ih best
        rw [mostCommonAux, if_neg h]
        refine ⟨?_, hge, ?_⟩
        · rcases hmem with h2 | h2
          · exact Or.inl h2
          · exact Or.inr (List.mem_cons_of_mem _ h2)
        · intro w hw
          rcases List.mem_cons.mp hw with rfl | hw2
          · exact le_trans (not_lt.mp h) hge
          · exact hall w hw2

theorem mostCommonValue_spec (values : List PVal) (h : ¬(values = [])) :
    mostCommonValue values ∈ values ∧
    ∀ w ∈ values, values.count w ≤ values.count (mostCommonValue values) := by
  have hd : ¬(dedupFO values = []) := by
    intro hnil
    cases values with
    | nil => exact h rfl
    | cons v vs =>
        have hmm : v ∈ dedupFO (v :: vs) :=
          (mem_dedupFO _ _).mpr (List.mem_cons_self _ _)
        rw [hnil] at hmm
        cases hmm
  obtain ⟨v0, vs0, hvs⟩ := List.exists_cons_of_ne_nil hd
  have hv0 : v0 ∈ values := by
    apply (mem_dedupFO _ _).mp
    rw [hvs]
    exact List.mem_cons_self _ _
  have hsub : ∀ w ∈ vs0, w ∈ values := by
    intro w hw
    apply (mem_dedupFO _ _).mp
    rw [hvs]
    exact List.mem_cons_of_mem _ hw
  obtain ⟨hmem, hge, hall⟩ := mostCommonAux_spec values vs0 v0
  have hrw : mostCommonValue values = mostCommonAux values vs0 v0 := by
    rw [mostCommonValue, hvs]
  rw [hrw]
  constructor
  · rcases hmem with h2 | h2
    · rw [h2]
      exact hv0
    · exact hsub _ h2
  · intro w hw
    have hwd : w ∈ dedupFO values := (mem_dedupFO _ _).mpr hw
    rw [hvs] at hwd
    rcases List.mem_cons.mp hwd with rfl | hw2
    · exact hge
    · exact hall w hw2

theorem sumInv_some (products : List MProduct) (ti : ℚ)
    (h : sumInv products = some ti) :
    ∃ qs : List ℚ, products.map invTerm = qs.map some ∧ ti = qs.sum := by
  induction products generalizing ti with
  | nil =>
      refine ⟨[], rfl, ?_⟩
      simp only [sumInv] at h
      injection h with h2
      rw [← h2]
      rfl
  | cons p ps ih =>
      simp only [sumInv] at h
      cases hq : invTerm p with
      | none =>
          rw [hq] at h
          have h3 : (none : Option ℚ) = some ti := h
          cases h3
      | some q =>
          rw [hq] at h
          cases hsps : sumInv ps with
          | none =>
              rw [hsps] at h
              have h3 : (none : Option ℚ) = some ti := h
              cases h3
          | some s =>
              rw [hsps] at h
              have h3 : some (q + s) = some ti := h
              injection h3 with h2
              obtain ⟨qs, hmap, hsum⟩ := ih s hsps
              refine ⟨q :: qs, ?_, ?_⟩
              · simp only [List.map_cons, hq, hmap]
              · rw [← h2, hsum, List.sum_cons]

theorem mergedAttributes_char (products : List MProduct)
    (ma : List (String × PVal))
    (hma : ma = (((products.getD (argmaxFirst (products.map completeness))
        []).map Prod.fst).map (mergedEntryFor products)).flatten) :
    (∀ k v, (k, v) ∈ ma →
      ¬(k = "sku") ∧ ¬(k = "inventory_count") ∧
      k ∈ (products.getD (argmaxFirst (products.map completeness)) []).map
        Prod.fst ∧
      ¬(products.filterMap (fun p => mget p k) = []) ∧
      ((k = "price" ∧
          (products.filterMap (fun p => mget p k)).all isNumV = true) →
        v = .num (((products.filterMap (fun p => mget p k)).map numOf).sum /
          ((products.filterMap (fun p => mget p k)).length : ℚ))) ∧
      (¬(k = "price" ∧
          (products.filterMap (fun p => mget p k)).all isNumV = true) →
        v ∈ products.filterMap (fun p => mget p k) ∧
        ∀ w ∈ products.filterMap (fun p => mget p k),
          (products.filterMap (fun p => mget p k)).count w ≤
            (products.filterMap (fun p => mget p k)).count v)) ∧
    (∀ k ∈ (products.getD (argmaxFirst (products.map completeness)) []).map
        Prod.fst,
      ¬(k = "sku") → ¬(k = "inventory_count") →
      ¬(products.filterMap (fun p => mget p k) = []) →
      ∃ v, (k, v) ∈ ma) := by
  constructor
  · intro k v hmem
    rw [hma] at hmem
    rw [List.mem_flatten] at hmem
    obtain ⟨entry, hentry, hkv⟩ := hmem
    rw [List.mem_map] at hentry
    obtain ⟨k0, hk0, rfl⟩ := hentry
    rw [mergedEntryFor] at hkv
    by_cases hsku : k0 = "sku"
    · simp [hsku] at hkv
    · by_cases hinvk : k0 = "inventory_count"
      · simp [hinvk] at hkv
      · rw [if_pos (by simp [hsku, hinvk])] at hkv
        cases hval : mergedValueFor products k0 with
        | none => rw [hval] at hkv; cases hkv
        | some v0 =>
            rw [hval] at hkv
            simp only [List.mem_singleton, Prod.mk.injEq] at hkv
            obtain ⟨hkeq, hveq⟩ := hkv
            subst hkeq
            subst hveq
            rw [mergedValueFor] at hval
            by_cases hnil : products.filterMap (fun p => mget p k) = []
            · rw [if_pos hnil] at hval
              cases hval
            · rw [if_neg hnil] at hval
              refine ⟨hsku, hinvk, hk0, hnil, ?_, ?_⟩
              · intro ⟨hk, hall⟩
                rw [if_pos (by
                  rw [Bool.and_eq_true]
                  exact ⟨by simpa using hk, hall⟩)] at hval
                exact (Option.some.injEq _ _).mp hval.symm
              · intro hnot
                have hcond : ¬((k = "price" &&
                    (products.filterMap (fun p => mget p k)).all isNumV)
                      = true) := by
                  simp only [Bool.and_eq_true, decide_eq_true_eq]
                  exact hnot
                rw [if_neg hcond] at hval
                have hveq2 : v = mostCommonValue
                    (products.filterMap (fun p => mget p k)) :=
                  ((Option.some.injEq _ _).mp hval).symm
                rw [hveq2]
                exact mostCommonValue_spec _ hnil
  · intro k hk hsku hinvk hnil
    rw [hma]
    have hval : ∃ v0, mergedValueFor products k = some v0 := by
      rw [mergedValueFor, if_neg hnil]
      by_cases hp : (k = "price" &&
          (products.filterMap (fun p => mget p k)).all isNumV) = true
      · rw [if_pos hp]
        exact ⟨_, rfl⟩
      · rw [if_neg hp]
        exact ⟨_, rfl⟩
    obtain ⟨v0, hv0⟩ := hval
    refine ⟨v0, ?_⟩
    rw [List.mem_flatten]
    refine ⟨mergedEntryFor products k, List.mem_map_of_mem _ hk, ?_⟩
    rw [mergedEntryFor, if_pos (by simp [hsku, hinvk]), hv0]
    exact List.mem_singleton.mpr rfl

/-- C9 amended: `_create_merge_recommendation` raises (no recommendation,
`none`) exactly when the group is empty (`np.argmax` raises `ValueError`)
or some member carries a present null or non-numeric `inventory_count`
(the inventory sum raises `TypeError`).  Otherwise `total_inventory` sums
the numeric `inventory_count` values with missing keys contributing the
default 0, and `merged_attributes` merges every non-`sku`,
non-`inventory_count` key of the primary (most complete, first-maximum)
record that has at least one non-null value: `price` becomes the
arithmetic mean when all its values are numeric, and every other key
receives a value of maximal frequency among the group's non-null values —
the tie among equally frequent values is broken by the iteration order of
Python's `set`, not necessarily in favor of the primary record's own
value. -/
theorem createMergeRecommendation_spec (products : List MProduct) :
    (createMergeRecommendation products = none ↔
      (products = [] ∨ sumInv products = none)) ∧
    ∀ rec, createMergeRecommendation products = some rec →
      sumInv products = some rec.total_inventory ∧
      (∃ qs : List ℚ, products.map invTerm = qs.map some ∧
        rec.total_inventory = qs.sum) ∧
      (∀ k v, (k, v) ∈ rec.merged_attributes →
        ¬(k = "sku") ∧ ¬(k = "inventory_count") ∧
        k ∈ (products.getD (argmaxFirst (products.map completeness)) []).map
          Prod.fst ∧
        ¬(products.filterMap (fun p => mget p k) = []) ∧
        ((k = "price" ∧
            (products.filterMap (fun p => mget p k)).all isNumV = true) →
          v = .num (((products.filterMap (fun p => mget p k)).map
              numOf).sum /
            ((products.filterMap (fun p => mget p k)).length : ℚ))) ∧
        (¬(k = "price" ∧
            (products.filterMap (fun p => mget p k)).all isNumV = true) →
          v ∈ products.filterMap (fun p => mget p k) ∧
          ∀ w ∈ products.filterMap (fun p => mget p k),
            (products.filterMap (fun p => mget p k)).count w ≤
              (products.filterMap (fun p => mget p k)).count v)) ∧
      (∀ k ∈ (products.getD (argmaxFirst (products.map completeness)) []).map
          Prod.fst,
        ¬(k = "sku") → ¬(k = "inventory_count") →
        ¬(products.filterMap (fun p => mget p k) = []) →
        ∃ v, (k, v) ∈ rec.merged_attributes) := by
  have hnone : createMergeRecommendation products = none ↔
      (products = [] ∨ sumInv products = none) := by
    by_cases hp : products = []
    · subst hp
      simp [createMergeRecommendation]
    · cases hs : sumInv products with
      | none => simp [createMergeRecommendation, hp, hs]
      | some ti => simp [createMergeRecommendation, hp, hs]
  refine ⟨hnone, ?_⟩
  intro rec hrec
  by_cases hp : products = []
  · rw [hnone.mpr (Or.inl hp)] at hrec
    cases hrec
  · cases hs : sumInv products with
    | none =>
        rw [hnone.mpr (Or.inr hs)] at hrec
        cases hrec
    | some ti =>
        simp only [createMergeRecommendation, if_neg hp, hs] at hrec
        injection hrec with h
        subst h
        obtain ⟨qs, hmap, hsum⟩ := sumInv_some products ti hs
        have hchar := mergedAttributes_char products _ (by
          show ((products.getD (argmaxFirst (products.map completeness))
              []).map Prod.fst).foldl
            (fun acc k => acc ++ mergedEntryFor products k) [] = _
          rw [foldl_append_join, List.nil_append])
        exact ⟨rfl, ⟨qs, hmap, hsum⟩, hchar.1, hchar.2⟩

/-- C9 witness: the merged-attributes characterization applied to a
one-product group and its `w` attribute. -/
theorem createMergeRecommendation_spec_witness :
    ¬("w" = "sku") ∧ ¬("w" = "inventory_count") ∧
    "w" ∈ (([[("sku", some (.str "S")), ("w", some (.str "a"))]] : List MProduct).getD
      (argmaxFirst (([[("sku", some (.str "S")), ("w", some (.str "a"))]] : List MProduct).map completeness)) []).map Prod.fst ∧
    ¬(([[("sku", some (.str "S")), ("w", some (.str "a"))]] : List MProduct).filterMap (fun p => mget p "w") = []) ∧
    (("w" = "price" ∧
        (([[("sku", some (.str "S")), ("w", some (.str "a"))]] : List MProduct).filterMap (fun p => mget p "w")).all isNumV = true) →
      PVal.str "a" = .num (((([[("sku", some (.str "S")), ("w", some (.str "a"))]] : List MProduct).filterMap
          (fun p => mget p "w")).map numOf).sum /
        ((([[("sku", some (.str "S")), ("w", some (.str "a"))]] : List MProduct).filterMap (fun p => mget p "w")).length : ℚ))) ∧
    (¬("w" = "price" ∧
        (([[("sku", some (.str "S")), ("w", some (.str "a"))]] : List MProduct).filterMap (fun p => mget p "w")).all isNumV = true) →
      PVal.str "a" ∈ ([[("sku", some (.str "S")), ("w", some (.str "a"))]] : List MProduct).filterMap (fun p => mget p "w") ∧
      ∀ w2 ∈ ([[("sku", some (.str "S")), ("w", some (.str "a"))]] : List MProduct).filterMap (fun p => mget p "w"),
        (([[("sku", some (.str "S")), ("w", some (.str "a"))]] : List MProduct).filterMap (fun p => mget p "w")).count w2 ≤
          (([[("sku", some (.str "S")), ("w", some (.str "a"))]] : List MProduct).filterMap (fun p => mget p "w")).count (PVal.str "a")) :=
  ((createMergeRecommendation_spec
      ([[("sku", some (.str "S")), ("w", some (.str "a"))]] : List MProduct)).2
    ⟨"S", ["S"], 0 + 0, [("w", PVal.str "a")], "$0.00"⟩ rfl).2.2.1
    "w" (.str "a") (by decide)

/-- C9 counterexample: a frequency tie is not broken in favor of the
primary record.  The second product is the most complete (the primary) and
carries `w = 2`, yet the merged `w` is `1`: both values occur once, and
`max(set(values), key=values.count)` returns the first maximum in set
iteration order (for the small integers 1 and 2, CPython iterates `(1, 2)`
as `[1, 2]`), not the primary's value. -/
theorem mergeRecommendation_tie_not_primary :
    argmaxFirst (([[("sku", some (.str "S1")), ("w", some (.num 1)),
      ("inventory_count", some (.num 5))],
     [("sku", some (.str "S2")), ("w", some (.num 2)),
      ("x", some (.str "z")), ("inventory_count", some (.num 7))]] : List MProduct).map completeness) = 1 ∧
    mget (([[("sku", some (.str "S1")), ("w", some (.num 1)),
      ("inventory_count", some (.num 5))],
     [("sku", some (.str "S2")), ("w", some (.num 2)),
      ("x", some (.str "z")), ("inventory_count", some (.num 7))]] : List MProduct).getD 1 []) "w" = some (.num 2) ∧
    (∃ rec, createMergeRecommendation ([[("sku", some (.str "S1")), ("w", some (.num 1)),
      ("inventory_count", some (.num 5))],
     [("sku", some (.str "S2")), ("w", some (.num 2)),
      ("x", some (.str "z")), ("inventory_count", some (.num 7))]] : List MProduct) = some rec ∧
      List.lookup "w" rec.merged_attributes = some (.num 1)) ∧
    ¬(PVal.num 1 = PVal.num 2) := by
  have hne : ¬(PVal.num 2 = PVal.num 1) := by
    simp only [PVal.num.injEq]
    norm_num
  have hbe21 : ((PVal.num 2) == (PVal.num 1)) = false :=
    beq_eq_false_iff_ne.mpr hne
  have hbe12 : ((PVal.num 1) == (PVal.num 2)) = false :=
    beq_eq_false_iff_ne.mpr (fun h => hne h.symm)
  have hd : dedupFO [PVal.num 1, PVal.num 2] = [PVal.num 1, PVal.num 2] := by
    simp [dedupFO, dedupFOAux, hne]
  have hc1 : List.count (PVal.num 1) [PVal.num 1, PVal.num 2] = 1 := by
    simp [List.count_cons, hbe12, hbe21]
  have hc2 : List.count (PVal.num 2) [PVal.num 1, PVal.num 2] = 1 := by
    simp [List.count_cons, hbe12, hbe21]
  have hmc : mostCommonValue [PVal.num 1, PVal.num 2] = PVal.num 1 := by
    rw [mostCommonValue, hd]
    show mostCommonAux [PVal.num 1, PVal.num 2] [PVal.num 2] (PVal.num 1)
      = PVal.num 1
    rw [show mostCommonAux [PVal.num 1, PVal.num 2] [PVal.num 2] (PVal.num 1)
        = if List.count (PVal.num 1) [PVal.num 1, PVal.num 2] <
            List.count (PVal.num 2) [PVal.num 1, PVal.num 2] then
          mostCommonAux [PVal.num 1, PVal.num 2] [] (PVal.num 2)
        else mostCommonAux [PVal.num 1, PVal.num 2] [] (PVal.num 1)
      from rfl]
    rw [hc1, hc2, if_neg (by omega)]
    rfl
  have hw : mergedEntryFor ([[("sku", some (.str "S1")), ("w", some (.num 1)),
      ("inventory_count", some (.num 5))],
     [("sku", some (.str "S2")), ("w", some (.num 2)),
      ("x", some (.str "z")), ("inventory_count", some (.num 7))]] : List MProduct) "w" = [("w", PVal.num 1)] := by
    rw [mergedEntryFor, if_pos (by decide)]
    rw [show mergedValueFor ([[("sku", some (.str "S1")), ("w", some (.num 1)),
      ("inventory_count", some (.num 5))],
     [("sku", some (.str "S2")), ("w", some (.num 2)),
      ("x", some (.str "z")), ("inventory_count", some (.num 7))]] : List MProduct) "w"
        = some (mostCommonValue [PVal.num 1, PVal.num 2]) from by
      rw [mergedValueFor]
      rw [show ([[("sku", some (.str "S1")), ("w", some (.num 1)),
      ("inventory_count", some (.num 5))],
     [("sku", some (.str "S2")), ("w", some (.num 2)),
      ("x", some (.str "z")), ("inventory_count", some (.num 7))]] : List MProduct).filterMap (fun p => mget p "w")
          = [PVal.num 1, PVal.num 2] from rfl]
      rw [if_neg (by simp), if_neg (by simp)]]
    rw [hmc]
  have hma2 : (((([[("sku", some (.str "S1")), ("w", some (.num 1)),
      ("inventory_count", some (.num 5))],
     [("sku", some (.str "S2")), ("w", some (.num 2)),
      ("x", some (.str "z")), ("inventory_count", some (.num 7))]] : List MProduct).getD
        (argmaxFirst (([[("sku", some (.str "S1")), ("w", some (.num 1)),
      ("inventory_count", some (.num 5))],
     [("sku", some (.str "S2")), ("w", some (.num 2)),
      ("x", some (.str "z")), ("inventory_count", some (.num 7))]] : List MProduct).map completeness)) []).map Prod.fst).foldl
      (fun acc k => acc ++ mergedEntryFor ([[("sku", some (.str "S1")), ("w", some (.num 1)),
      ("inventory_count", some (.num 5))],
     [("sku", some (.str "S2")), ("w", some (.num 2)),
      ("x", some (.str "z")), ("inventory_count", some (.num 7))]] : List MProduct) k) [])
      = [("w", PVal.num 1), ("x", PVal.str "z")] := by
    show (["sku", "w", "x", "inventory_count"].foldl
      (fun acc k => acc ++ mergedEntryFor ([[("sku", some (.str "S1")), ("w", some (.num 1)),
      ("inventory_count", some (.num 5))],
     [("sku", some (.str "S2")), ("w", some (.num 2)),
      ("x", some (.str "z")), ("inventory_count", some (.num 7))]] : List MProduct) k) []) = _
    simp only [List.foldl_cons, List.foldl_nil, hw,
      show mergedEntryFor ([[("sku", some (.str "S1")), ("w", some (.num 1)),
      ("inventory_count", some (.num 5))],
     [("sku", some (.str "S2")), ("w", some (.num 2)),
      ("x", some (.str "z")), ("inventory_count", some (.num 7))]] : List MProduct) "sku" = [] from rfl,
      show mergedEntryFor ([[("sku", some (.str "S1")), ("w", some (.num 1)),
      ("inventory_count", some (.num 5))],
     [("sku", some (.str "S2")), ("w", some (.num 2)),
      ("x", some (.str "z")), ("inventory_count", some (.num 7))]] : List MProduct) "x" = [("x", PVal.str "z")] from rfl,
      show mergedEntryFor ([[("sku", some (.str "S1")), ("w", some (.num 1)),
      ("inventory_count", some (.num 5))],
     [("sku", some (.str "S2")), ("w", some (.num 2)),
      ("x", some (.str "z")), ("inventory_count", some (.num 7))]] : List MProduct) "inventory_count" = [] from rfl]
    rfl
  refine ⟨by decide, rfl, ?_, fun h => hne (PVal.num.injEq 2 1 ▸ h.symm)⟩
  refine ⟨⟨"S2", ["S1", "S2"], 5 + (7 + 0),
    [("w", PVal.num 1), ("x", PVal.str "z")], "$50.00"⟩, ?_, rfl⟩
  have hs : sumInv ([[("sku", some (.str "S1")), ("w", some (.num 1)),
      ("inventory_count", some (.num 5))],
     [("sku", some (.str "S2")), ("w", some (.num 2)),
      ("x", some (.str "z")), ("inventory_count", some (.num 7))]] : List MProduct) = some ((5 : ℚ) + (7 + 0)) := rfl
  have hp2 : ¬(([[("sku", some (.str "S1")), ("w", some (.num 1)),
      ("inventory_count", some (.num 5))],
     [("sku", some (.str "S2")), ("w", some (.num 2)),
      ("x", some (.str "z")), ("inventory_count", some (.num 7))]] : List MProduct) = []) := by simp
  simp only [createMergeRecommendation, if_neg hp2, hs, hma2]
  rfl

theorem mem_edgeNodeSeq (es : List (String × String)) (x : String) :
    x ∈ edgeNodeSeq es ↔ ∃ e ∈ es, e.1 = x ∨ e.2 = x := by
  induction es with
  | nil => simp [edgeNodeSeq]
  | cons e tl ih =>
      simp only [edgeNodeSeq, List.foldr_cons, List.mem_cons] at *
      constructor
      · rintro (rfl | rfl | h)
        · exact ⟨e, Or.inl rfl, Or.inl rfl⟩
        · exact ⟨e, Or.inl rfl, Or.inr rfl⟩
        · obtain ⟨e2, he2, hx⟩ := ih.mp h
          exact ⟨e2, Or.inr he2, hx⟩
      · rintro ⟨e2, (rfl | he2), hx⟩
        · rcases hx with rfl | rfl
          · exact Or.inl rfl
          · exact Or.inr (Or.inl rfl)
        · exact Or.inr (Or.inr (ih.mpr ⟨e2, he2, hx⟩))

theorem adjE_symm (es : List (String × String)) {a b : String}
    (h : adjE es a b) : adjE es b a := Or.symm h

theorem adjE_mem (es : List (String × String)) {a b : String}
    (h : adjE es a b) : a ∈ nodeFinset es ∧ b ∈ nodeFinset es := by
  simp only [nodeFinset, List.mem_toFinset, mem_edgeNodeSeq]
  rcases h with h | h
  · exact ⟨⟨(a, b), h, Or.inl rfl⟩, ⟨(a, b), h, Or.inr rfl⟩⟩
  · exact ⟨⟨(b, a), h, Or.inr rfl⟩, ⟨(b, a), h, Or.inl rfl⟩⟩

theorem reachE_symm (es : List (String × String)) {a b : String}
    (h : reachE es a b) : reachE es b a := by
  induction h with
  | refl => exact Relation.ReflTransGen.refl
  | tail h1 h2 ih => exact Relation.ReflTransGen.head (adjE_symm es h2) ih

theorem mem_nbrs (es : List (String × String)) (a m : String) :
    m ∈ nbrs es a ↔ adjE es a m := by
  simp only [nbrs, adjE, List.mem_append, List.mem_map, List.mem_filter,
    decide_eq_true_eq]
  constructor
  · rintro (⟨e, ⟨he, h1⟩, h2⟩ | ⟨e, ⟨he, h2⟩, h1⟩)
    · subst h1
      subst h2
      exact Or.inl (by simpa using he)
    · subst h1
      subst h2
      exact Or.inr (by simpa using he)
  · rintro (h | h)
    · exact Or.inl ⟨(a, m), ⟨h, rfl⟩, rfl⟩
    · exact Or.inr ⟨(m, a), ⟨h, rfl⟩, rfl⟩

theorem dfs_subset (es : List (String × String)) :
    ∀ (stack : List String) (visited : Finset String),
      visited ⊆ dfsAux es stack visited := by
  intro stack visited
  induction stack, visited using dfsAux.induct es with
  | case1 visited => rw [dfsAux]
  | case2 n stack visited h ih =>
      rw [dfsAux, if_pos h]
      exact ih
  | case3 n stack visited h ih =>
      rw [dfsAux, if_neg h]
      exact (Finset.subset_insert n visited).trans ih

theorem dfs_mem_stack (es : List (String × String)) :
    ∀ (stack : List String) (visited : Finset String),
      ∀ n ∈ stack, n ∈ dfsAux es stack visited := by
  intro stack visited
  induction stack, visited using dfsAux.induct es with
  | case1 visited => intro n hn; exact absurd hn (List.not_mem_nil n)
  | case2 n stack visited h ih =>
      intro m hm
      rw [dfsAux, if_pos h]
      rcases List.mem_cons.mp hm with rfl | hm
      · exact dfs_subset es stack visited h
      · exact ih m hm
  | case3 n stack visited h ih =>
      intro m hm
      rw [dfsAux, if_neg h]
      rcases List.mem_cons.mp hm with rfl | hm
      · exact dfs_subset es _ _ (Finset.mem_insert_self m visited)
      · exact ih m (List.mem_append_right _ hm)

theorem dfs_sound (es : List (String × String)) :
    ∀ (stack : List String) (visited : Finset String),
      ∀ x ∈ dfsAux es stack visited,
        x ∈ visited ∨ ∃ n ∈ stack, reachE es n x := by
  intro stack visited
  induction stack, visited using dfsAux.induct es with
  | case1 visited =>
      intro x hx
      rw [dfsAux] at hx
      exact Or.inl hx
  | case2 n stack visited h ih =>
      intro x hx
      rw [dfsAux, if_pos h] at hx
      rcases ih x hx with hv | ⟨m, hm, hr⟩
      · exact Or.inl hv
      · exact Or.inr ⟨m, List.mem_cons_of_mem n hm, hr⟩
  | case3 n stack visited h ih =>
      intro x hx
      rw [dfsAux, if_neg h] at hx
      rcases ih x hx with hv | ⟨m, hm, hr⟩
      · rcases Finset.mem_insert.mp hv with rfl | hv
        · exact Or.inr ⟨x, List.mem_cons_self x stack, Relation.ReflTransGen.refl⟩
        · exact Or.inl hv
      · rcases List.mem_append.mp hm with hmn | hms
        · refine Or.inr ⟨n, List.mem_cons_self n stack, ?_⟩
          exact Relation.ReflTransGen.head ((mem_nbrs es n m).mp hmn) hr
        · exact Or.inr ⟨m, List.mem_cons_of_mem n hms, hr⟩

theorem dfs_closed (es : List (String × String)) :
    ∀ (stack : List String) (visited : Finset String),
      (∀ x ∈ visited, ∀ y, adjE es x y → y ∈ visited ∨ y ∈ stack) →
      ∀ x ∈ dfsAux es stack visited, ∀ y, adjE es x y →
        y ∈ dfsAux es stack visited := by
  intro stack visited
  induction stack, visited using dfsAux.induct es with
  | case1 visited =>
      intro hinv x hx y hxy
      rw [dfsAux] at hx ⊢
      rcases hinv x hx y hxy with hv | hv
      · exact hv
      · exact absurd hv (List.not_mem_nil y)
  | case2 n stack visited h ih =>
      intro hinv x hx y hxy
      rw [dfsAux, if_pos h] at hx ⊢
      refine ih ?_ x hx y hxy
      intro a ha b hab
      rcases hinv a ha b hab with hv | hv
      · exact Or.inl hv
      · rcases List.mem_cons.mp hv with rfl | hv
        · exact Or.inl h
        · exact Or.inr hv
  | case3 n stack visited h ih =>
      intro hinv x hx y hxy
      rw [dfsAux, if_neg h] at hx ⊢
      refine ih ?_ x hx y hxy
      intro a ha b hab
      rcases Finset.mem_insert.mp ha with rfl | ha
      · exact Or.inr (List.mem_append_left _ ((mem_nbrs es a b).mpr hab))
      · rcases hinv a ha b hab with hv | hv
        · exact Or.inl (Finset.mem_insert_of_mem hv)
        · rcases List.mem_cons.mp hv with rfl | hv
          · exact Or.inl (Finset.mem_insert_self b visited)
          · exact Or.inr (List.mem_append_right _ hv)

theorem reach_stay (es : List (String × String)) (S : Finset String)
    (hS : ∀ x ∈ S, ∀ y, adjE es x y → y ∈ S) {a b : String}
    (hr : reachE es a b) (ha : a ∈ S) : b ∈ S := by
  induction hr with
  | refl => exact ha
  | tail h1 h2 ih => exact hS _ ih _ h2

theorem dfs_seed_closed (es : List (String × String)) (visited : Finset String)
    (hclosed : ∀ x ∈ visited, ∀ y, adjE es x y → y ∈ visited) (n : String) :
    ∀ x ∈ dfsAux es [n] visited, ∀ y, adjE es x y →
      y ∈ dfsAux es [n] visited :=
  dfs_closed es [n] visited (fun x hx y hxy => Or.inl (hclosed x hx y hxy))

theorem dfs_component (es : List (String × String)) (visited : Finset String)
    (hclosed : ∀ x ∈ visited, ∀ y, adjE es x y → y ∈ visited)
    (n : String) (hn : n ∉ visited) :
    ∀ x, x ∈ dfsAux es [n] visited ↔ x ∈ visited ∨ reachE es n x := by
  intro x
  constructor
  · intro hx
    rcases dfs_sound es [n] visited x hx with hv | ⟨m, hm, hr⟩
    · exact Or.inl hv
    · rcases List.mem_cons.mp hm with rfl | hnil
      · exact Or.inr hr
      · exact absurd hnil (List.not_mem_nil m)
  · rintro (hv | hr)
    · exact dfs_subset es [n] visited hv
    · refine reach_stay es (dfsAux es [n] visited)
        (dfs_seed_closed es visited hclosed n) hr ?_
      exact dfs_mem_stack es [n] visited n (List.mem_cons_self n [])

theorem gatherGroups_cons (es : List (String × String)) (n : String)
    (rest : List String) (visited : Finset String) :
    gatherGroups es (n :: rest) visited =
      if n ∈ visited then gatherGroups es rest visited
      else (dfsAux es [n] visited \ visited) ::
        gatherGroups es rest (dfsAux es [n] visited) := rfl

theorem gatherGroups_char (es : List (String × String)) :
    ∀ (seq : List String) (visited : Finset String),
      (∀ x ∈ visited, ∀ y, adjE es x y → y ∈ visited) →
      ∀ g ∈ gatherGroups es seq visited,
        ∃ n V, visited ⊆ V ∧ (∀ x ∈ V, ∀ y, adjE es x y → y ∈ V) ∧
          n ∉ V ∧ n ∈ seq ∧ ∀ x, x ∈ g ↔ (x ∉ V ∧ reachE es n x) := by
  intro seq
  induction seq with
  | nil =>
      intro visited hcl g hg
      exact absurd hg (List.not_mem_nil g)
  | cons n rest ih =>
      intro visited hcl g hg
      rw [gatherGroups_cons] at hg
      by_cases hn : n ∈ visited
      · rw [if_pos hn] at hg
        obtain ⟨m, V, h1, h2, h3, h4, h5⟩ := ih visited hcl g hg
        exact ⟨m, V, h1, h2, h3, List.mem_cons_of_mem n h4, h5⟩
      · rw [if_neg hn] at hg
        rcases List.mem_cons.mp hg with rfl | hg
        · refine ⟨n, visited, Finset.Subset.refl _, hcl, hn,
            List.mem_cons_self n rest, ?_⟩
          intro x
          rw [Finset.mem_sdiff]
          constructor
          · rintro ⟨hx, hxv⟩
            rcases (dfs_component es visited hcl n hn x).mp hx with hv | hr
            · exact absurd hv hxv
            · exact ⟨hxv, hr⟩
          · rintro ⟨hxv, hr⟩
            exact ⟨(dfs_component es visited hcl n hn x).mpr (Or.inr hr), hxv⟩
        · obtain ⟨m, V, h1, h2, h3, h4, h5⟩ :=
            ih (dfsAux es [n] visited) (dfs_seed_closed es visited hcl n) g hg
          exact ⟨m, V, (dfs_subset es [n] visited).trans h1, h2, h3,
            List.mem_cons_of_mem n h4, h5⟩

theorem gatherGroups_disjoint (es : List (String × String)) :
    ∀ (seq : List String) (visited : Finset String),
      (∀ x ∈ visited, ∀ y, adjE es x y → y ∈ visited) →
      (gatherGroups es seq visited).Pairwise
        (fun g1 g2 => ∀ x, x ∈ g1 → x ∉ g2) := by
  intro seq
  induction seq with
  | nil =>
      intro visited hcl
      exact List.Pairwise.nil
  | cons n rest ih =>
      intro visited hcl
      rw [gatherGroups_cons]
      by_cases hn : n ∈ visited
      · rw [if_pos hn]
        exact ih visited hcl
      · rw [if_neg hn]
        refine List.Pairwise.cons ?_ (ih _ (dfs_seed_closed es visited hcl n))
        intro g2 hg2 x hx1 hx2
        obtain ⟨m, V, h1, h2, h3, h4, h5⟩ :=
          gatherGroups_char es rest (dfsAux es [n] visited)
            (dfs_seed_closed es visited hcl n) g2 hg2
        exact ((h5 x).mp hx2).1 (h1 (Finset.mem_sdiff.mp hx1).1)

theorem gatherGroups_cover (es : List (String × String)) :
    ∀ (seq : List String) (visited : Finset String),
      (∀ x ∈ visited, ∀ y, adjE es x y → y ∈ visited) →
      ∀ x ∈ seq, x ∉ visited →
        ∃ g ∈ gatherGroups es seq visited, x ∈ g := by
  intro seq
  induction seq with
  | nil =>
      intro visited hcl x hx hxv
      exact absurd hx (List.not_mem_nil x)
  | cons n rest ih =>
      intro visited hcl x hx hxv
      rw [gatherGroups_cons]
      by_cases hn : n ∈ visited
      · rw [if_pos hn]
        rcases List.mem_cons.mp hx with rfl | hx
        · exact absurd hn hxv
        · exact ih visited hcl x hx hxv
      · rw [if_neg hn]
        by_cases hxr : x ∈ dfsAux es [n] visited
        · exact ⟨_, List.mem_cons_self _ _, Finset.mem_sdiff.mpr ⟨hxr, hxv⟩⟩
        · have hx2 : x ∈ rest := by
            rcases List.mem_cons.mp hx with rfl | hx
            · exact absurd
                (dfs_mem_stack es [x] visited x (List.mem_cons_self x [])) hxr
            · exact hx
          obtain ⟨g, hg, hxg⟩ := ih (dfsAux es [n] visited)
            (dfs_seed_closed es visited hcl n) x hx2 hxr
          exact ⟨g, List.mem_cons_of_mem _ hg, hxg⟩

theorem reach_mem_nodeFinset (es : List (String × String)) {a b : String}
    (ha : a ∈ nodeFinset es) (hr : reachE es a b) : b ∈ nodeFinset es := by
  induction hr with
  | refl => exact ha
  | tail h1 h2 ih => exact (adjE_mem es h2).2

theorem empty_closed (es : List (String × String)) :
    ∀ x ∈ (∅ : Finset String), ∀ y, adjE es x y → y ∈ (∅ : Finset String) :=
  fun x hx => absurd hx (Finset.not_mem_empty x)

theorem groupDuplicates_disjoint (cands : List Candidate) (minConfidence : ℚ) :
    (groupDuplicates cands minConfidence).Pairwise
      (fun g1 g2 => ∀ x, x ∈ g1 → x ∉ g2) :=
  gatherGroups_disjoint (survivingEdges cands minConfidence)
    (edgeNodeSeq (survivingEdges cands minConfidence)) ∅
    (empty_closed _)

theorem groupDuplicates_mutual_reach (cands : List Candidate)
    (minConfidence : ℚ) :
    ∀ g ∈ groupDuplicates cands minConfidence, ∀ x ∈ g, ∀ y ∈ g,
      reachE (survivingEdges cands minConfidence) x y := by
  intro g hg x hx y hy
  obtain ⟨n, V, h1, h2, h3, h4, h5⟩ :=
    gatherGroups_char (survivingEdges cands minConfidence)
      (edgeNodeSeq (survivingEdges cands minConfidence)) ∅
      (empty_closed _) g hg
  exact Relation.ReflTransGen.trans
    (reachE_symm _ ((h5 x).mp hx).2) ((h5 y).mp hy).2

theorem groupDuplicates_reach_closed (cands : List Candidate)
    (minConfidence : ℚ) :
    ∀ g ∈ groupDuplicates cands minConfidence, ∀ x ∈ g, ∀ y,
      reachE (survivingEdges cands minConfidence) x y → y ∈ g := by
  intro g hg x hx y hr
  obtain ⟨n, V, h1, h2, h3, h4, h5⟩ :=
    gatherGroups_char (survivingEdges cands minConfidence)
      (edgeNodeSeq (survivingEdges cands minConfidence)) ∅
      (empty_closed _) g hg
  obtain ⟨hxV, hnx⟩ := (h5 x).mp hx
  refine (h5 y).mpr ⟨?_, Relation.ReflTransGen.trans hnx hr⟩
  intro hyV
  exact h3 (reach_stay _ V h2
    (reachE_symm _ (Relation.ReflTransGen.trans hnx hr)) hyV)

theorem groupDuplicates_coverage (cands : List Candidate)
    (minConfidence : ℚ) :
    ∀ x, (∃ g ∈ groupDuplicates cands minConfidence, x ∈ g) ↔
      x ∈ nodeFinset (survivingEdges cands minConfidence) := by
  intro x
  constructor
  · rintro ⟨g, hg, hx⟩
    obtain ⟨n, V, h1, h2, h3, h4, h5⟩ :=
      gatherGroups_char (survivingEdges cands minConfidence)
        (edgeNodeSeq (survivingEdges cands minConfidence)) ∅
        (empty_closed _) g hg
    have hn : n ∈ nodeFinset (survivingEdges cands minConfidence) := by
      simp only [nodeFinset, List.mem_toFinset]
      exact h4
    exact reach_mem_nodeFinset _ hn ((h5 x).mp hx).2
  · intro hx
    exact gatherGroups_cover (survivingEdges cands minConfidence)
      (edgeNodeSeq (survivingEdges cands minConfidence)) ∅
      (empty_closed _) x (by simpa [nodeFinset, List.mem_toFinset] using hx)
      (Finset.not_mem_empty x)

/-- C1: `group_duplicates` returns exactly the connected components of the
surviving-edge graph: distinct groups share no SKU, members of a group are
mutually reachable along surviving edges, each group is closed under
reachability, a SKU lies in some group iff it is incident to a surviving
edge, and for pairs (A,B) and (B,C) both at confidence `0.9` with
`min_confidence = 0.85`, A and C land in one group although no (A,C) pair
exists. -/
theorem groupDuplicates_connected_components (cands : List Candidate)
    (minConfidence : ℚ) :
    ((groupDuplicates cands minConfidence).Pairwise
      (fun g1 g2 => ∀ x, x ∈ g1 → x ∉ g2)) ∧
    (∀ g ∈ groupDuplicates cands minConfidence, ∀ x ∈ g, ∀ y ∈ g,
      reachE (survivingEdges cands minConfidence) x y) ∧
    (∀ g ∈ groupDuplicates cands minConfidence, ∀ x ∈ g, ∀ y,
      reachE (survivingEdges cands minConfidence) x y → y ∈ g) ∧
    (∀ x, (∃ g ∈ groupDuplicates cands minConfidence, x ∈ g) ↔
      x ∈ nodeFinset (survivingEdges cands minConfidence)) ∧
    (∃ g ∈ groupDuplicates
        [⟨"A", "B", 9/10, [], 9/10, "r"⟩, ⟨"B", "C", 9/10, [], 9/10, "r"⟩]
        (85/100), "A" ∈ g ∧ "C" ∈ g) := by
  refine ⟨groupDuplicates_disjoint cands minConfidence,
    groupDuplicates_mutual_reach cands minConfidence,
    groupDuplicates_reach_closed cands minConfidence,
    groupDuplicates_coverage cands minConfidence, ?_⟩
  have hp : decide ((85/100 : ℚ) ≤ (9/10 : ℚ)) = true :=
    decide_eq_true (by norm_num)
  have hAB : ("A", "B") ∈ survivingEdges
      [⟨"A", "B", 9/10, [], 9/10, "r"⟩, ⟨"B", "C", 9/10, [], 9/10, "r"⟩]
      (85/100) := by
    refine List.mem_map.mpr ⟨⟨"A", "B", 9/10, [], 9/10, "r"⟩, ?_, rfl⟩
    exact List.mem_filter.mpr ⟨List.mem_cons_self _ _, hp⟩
  have hBC : ("B", "C") ∈ survivingEdges
      [⟨"A", "B", 9/10, [], 9/10, "r"⟩, ⟨"B", "C", 9/10, [], 9/10, "r"⟩]
      (85/100) := by
    refine List.mem_map.mpr ⟨⟨"B", "C", 9/10, [], 9/10, "r"⟩, ?_, rfl⟩
    exact List.mem_filter.mpr
      ⟨List.mem_cons_of_mem _ (List.mem_cons_self _ _), hp⟩
  have hA : "A" ∈ nodeFinset (survivingEdges
      [⟨"A", "B", 9/10, [], 9/10, "r"⟩, ⟨"B", "C", 9/10, [], 9/10, "r"⟩]
      (85/100)) := by
    simp only [nodeFinset, List.mem_toFinset, mem_edgeNodeSeq]
    exact ⟨("A", "B"), hAB, Or.inl rfl⟩
  obtain ⟨g, hg, hAg⟩ := (groupDuplicates_coverage _ _ "A").mpr hA
  refine ⟨g, hg, hAg, ?_⟩
  refine groupDuplicates_reach_closed _ _ g hg "A" hAg "C" ?_
  exact Relation.ReflTransGen.head (Or.inl hAB)
    (Relation.ReflTransGen.single (Or.inl hBC))
